import Mathlib

/-!
Verification of the peek desktop backend (Tauri/Rust) item/tag datastore and
its sync engine, as a shallow embedding in Lean 4.

Sources embedded:
- src/backend/tauri/src-tauri/src/datastore.rs  (item/tag store, frecency)
- src/backend/tauri/src-tauri/src/sync.rs       (pull/push/merge, orchestration)

Modelling conventions:
- SQLite tables are lists of records; a `WHERE id = ?` update maps over the
  list guarded by the id test, and primary-key/unique-index violations are
  surfaced as `Except.error`, mirroring rusqlite errors.
- `datastore::now()` (wall clock, ms) is an explicit parameter; orchestration
  code that calls `now()` repeatedly consumes an explicit `clock : Nat → Int`.
- `generate_id` (timestamp + uuid) is an explicit fresh-id parameter, or a
  generator `gen : Nat → String` where a loop allocates several ids.
- Rust `f64` arithmetic in `calculate_frecency` is embedded as exact rational
  arithmetic with `f64::round`'s half-away-from-zero rounding made explicit.
- The items table of the CREATE TABLE in src/ lacks the syncedAt, visitCount
  and lastVisitAt columns that sync.rs and the repository's smoke tests read;
  those columns (modelled from the spec: Item carries syncedAt, defaulting to
  0 = never synced) are included in the record type with default 0.
-/

namespace Peek

/-! ## Frecency calculator (datastore.rs `calculate_frecency`) -/

/-- Rust `f64::round`: round half away from zero, embedded on ℚ. -/
def rustRound (q : ℚ) : ℤ :=
  if 0 ≤ q then ⌊q + 1/2⌋ else -⌊-q + 1/2⌋

/-- Embedding of `calculate_frecency(frequency, last_used_at)` from
datastore.rs.  The `current_time` the Rust code reads from the wall clock is
an explicit parameter; the f64 computation
`frequency * 10 * (1 / (1 + days_since_use / 7))` followed by `.round() as i64`
is carried out in exact rational arithmetic. -/
def calculate_frecency (frequency last_used_at current_time : ℤ) : ℤ :=
  let days_since_use : ℚ := ((current_time - last_used_at : ℤ) : ℚ) / (1000 * 60 * 60 * 24)
  let decay_factor : ℚ := 1 / (1 + days_since_use / 7)
  rustRound ((frequency : ℚ) * 10 * decay_factor)

/-- The spec's score formula, written from the spec's words
(`score(frequency, lastUsedAt, now) = frequency * 10 * (1 / (1 + days_since_use/7))`),
as an exact rational: the reference against which the code's rounded integer
result is compared. -/
def frecencyExact (frequency last_used_at current_time : ℤ) : ℚ :=
  (frequency : ℚ) * 10 *
    (1 / (1 + (((current_time - last_used_at : ℤ) : ℚ) / (1000 * 60 * 60 * 24)) / 7))

theorem floor_int_add_half (m : ℤ) : ⌊(m : ℚ) + 1/2⌋ = m := by
  rw [Int.floor_eq_iff]
  constructor <;> [skip; push_cast] <;> linarith

theorem rustRound_intCast (n : ℤ) : rustRound (n : ℚ) = n := by
  unfold rustRound
  by_cases h : (0 : ℚ) ≤ (n : ℚ)
  · rw [if_pos h, floor_int_add_half]
  · rw [if_neg h, show (-(n : ℚ)) = ((-n : ℤ) : ℚ) by push_cast; ring,
      floor_int_add_half]
    ring

theorem rustRound_mono {q₁ q₂ : ℚ} (h : q₁ ≤ q₂) : rustRound q₁ ≤ rustRound q₂ := by
  unfold rustRound
  by_cases h1 : 0 ≤ q₁
  · rw [if_pos h1, if_pos (le_trans h1 h)]
    exact Int.floor_le_floor (by linarith)
  · rw [if_neg h1]
    by_cases h2 : 0 ≤ q₂
    · rw [if_pos h2]
      have ha : (0 : ℤ) ≤ ⌊q₂ + 1/2⌋ := by
        apply Int.floor_nonneg.mpr; linarith
      have hb : (0 : ℤ) ≤ ⌊-q₁ + 1/2⌋ := by
        apply Int.floor_nonneg.mpr; linarith
      omega
    · rw [if_neg h2]
      have : ⌊-q₂ + 1/2⌋ ≤ ⌊-q₁ + 1/2⌋ := Int.floor_le_floor (by linarith)
      omega

theorem abs_rustRound_sub_le (q : ℚ) : |((rustRound q : ℤ) : ℚ) - q| ≤ 1/2 := by
  unfold rustRound
  by_cases h : 0 ≤ q
  · rw [if_pos h]
    have h1 : ((⌊q + 1/2⌋ : ℤ) : ℚ) ≤ q + 1/2 := Int.floor_le _
    have h2 : q + 1/2 - 1 < ((⌊q + 1/2⌋ : ℤ) : ℚ) := Int.sub_one_lt_floor _
    rw [abs_le]
    constructor <;> linarith
  · rw [if_neg h]
    have h1 : ((⌊-q + 1/2⌋ : ℤ) : ℚ) ≤ -q + 1/2 := Int.floor_le _
    have h2 : -q + 1/2 - 1 < ((⌊-q + 1/2⌋ : ℤ) : ℚ) := Int.sub_one_lt_floor _
    rw [abs_le]
    push_cast
    constructor <;> linarith

theorem calculate_frecency_eq_round (f l n : ℤ) :
    calculate_frecency f l n = rustRound (frecencyExact f l n) := rfl

theorem calculate_frecency_zero_elapsed (f t : ℤ) :
    calculate_frecency f t t = 10 * f := by
  unfold calculate_frecency
  have : ((t - t : ℤ) : ℚ) = 0 := by push_cast; ring
  rw [this]
  norm_num
  rw [show ((f : ℚ) * 10) = ((10 * f : ℤ) : ℚ) by push_cast; ring]
  exact rustRound_intCast _

theorem frecencyExact_denominator (l n : ℤ) :
    (1 + (((n - l : ℤ) : ℚ) / (1000 * 60 * 60 * 24)) / 7)
      = 1 + ((n : ℚ) - (l : ℚ)) / 604800000 := by
  push_cast
  ring

theorem frecencyExact_strictAnti (f l₁ l₂ n : ℤ) (hf : 0 < f)
    (hlt : l₂ < l₁) (hle : l₁ ≤ n) :
    frecencyExact f l₂ n < frecencyExact f l₁ n := by
  unfold frecencyExact
  rw [frecencyExact_denominator, frecencyExact_denominator]
  have hc1 : ((l₂ : ℚ)) < (l₁ : ℚ) := by exact_mod_cast hlt
  have hc2 : ((l₁ : ℚ)) ≤ (n : ℚ) := by exact_mod_cast hle
  have h1 : (0 : ℚ) < 1 + ((n : ℚ) - (l₁ : ℚ)) / 604800000 := by
    have : (0 : ℚ) ≤ ((n : ℚ) - (l₁ : ℚ)) / 604800000 :=
      div_nonneg (by linarith) (by norm_num)
    linarith
  have h2 : 1 + ((n : ℚ) - (l₁ : ℚ)) / 604800000
      < 1 + ((n : ℚ) - (l₂ : ℚ)) / 604800000 := by
    have : ((n : ℚ) - (l₁ : ℚ)) / 604800000 < ((n : ℚ) - (l₂ : ℚ)) / 604800000 := by
      apply div_lt_div_of_pos_right (by linarith) (by norm_num)
    linarith
  have h3 := one_div_lt_one_div_of_lt h1 h2
  have hf10 : (0 : ℚ) < (f : ℚ) * 10 := by
    have : (0 : ℚ) < (f : ℚ) := by exact_mod_cast hf
    linarith
  exact mul_lt_mul_of_pos_left h3 hf10

theorem frecencyExact_strictMono_freq (f₁ f₂ l n : ℤ) (hf : f₁ < f₂) (hle : l ≤ n) :
    frecencyExact f₁ l n < frecencyExact f₂ l n := by
  unfold frecencyExact
  rw [frecencyExact_denominator]
  have hc : ((l : ℚ)) ≤ (n : ℚ) := by exact_mod_cast hle
  have h1 : (0 : ℚ) < 1 + ((n : ℚ) - (l : ℚ)) / 604800000 := by
    have : (0 : ℚ) ≤ ((n : ℚ) - (l : ℚ)) / 604800000 :=
      div_nonneg (by linarith) (by norm_num)
    linarith
  have hdecay : (0 : ℚ) < 1 / (1 + ((n : ℚ) - (l : ℚ)) / 604800000) :=
    one_div_pos.mpr h1
  have hmul : (f₁ : ℚ) * 10 < (f₂ : ℚ) * 10 := by
    have : (f₁ : ℚ) < (f₂ : ℚ) := by exact_mod_cast hf
    linarith
  exact mul_lt_mul_of_pos_right hmul hdecay

/-- C8 counterexample: the frecency calculator does not return
`frequency * 10 * (1 / (1 + days_since_use/7))` exactly.  At frequency 1 and
3.5 days of elapsed time the formula's value is 20/3, which is not an
integer; the code returns the rounded value 7. -/
theorem C8_counterexample :
    calculate_frecency 1 0 302400000 = 7 ∧
      frecencyExact 1 0 302400000 = 20 / 3 ∧ ((7 : ℚ) ≠ 20 / 3) := by
  refine ⟨?_, ?_, by norm_num⟩
  · norm_num [calculate_frecency, rustRound]
  · norm_num [frecencyExact]

/-- C8 (amended): `calculate_frecency` returns the spec formula's value
`frequency * 10 * (1 / (1 + days_since_use/7))` rounded to the nearest
integer (half away from zero), hence always within 1/2 of the exact value;
and when `lastUsedAt = now` (zero elapsed time, zero decay) the result is
exactly `frequency × 10`. -/
theorem C8_frecency_formula_rounded :
    (∀ f l n : ℤ, |((calculate_frecency f l n : ℤ) : ℚ) - frecencyExact f l n| ≤ 1 / 2) ∧
      (∀ f t : ℤ, calculate_frecency f t t = 10 * f) := by
  constructor
  · intro f l n
    rw [calculate_frecency_eq_round]
    exact abs_rustRound_sub_le _
  · exact calculate_frecency_zero_elapsed

/-- C9 counterexample: the integer-valued calculator is not strictly
decreasing in elapsed time.  At frequency 1 > 0, elapsed times 0 ms and 1 ms
both score 10, so a strictly larger elapsed time does not give a strictly
smaller score. -/
theorem C9_counterexample :
    calculate_frecency 1 1000000000 1000000000 = 10 ∧
      calculate_frecency 1 999999999 1000000000 = 10 ∧
      ¬ (calculate_frecency 1 999999999 1000000000
          < calculate_frecency 1 1000000000 1000000000) := by
  refine ⟨?_, ?_, ?_⟩
  · norm_num [calculate_frecency, rustRound]
  · norm_num [calculate_frecency, rustRound]
  · norm_num [calculate_frecency, rustRound]

/-- C9 (amended): the exact (pre-rounding) frecency score is strictly
decreasing in elapsed time for positive frequency and strictly increasing in
frequency; after the code's rounding to an integer these monotonicities hold
weakly (the returned score is non-increasing in elapsed time and
non-decreasing in frequency). -/
theorem C9_frecency_monotonicity :
    (∀ f n d₁ d₂ : ℤ, 0 < f → 0 ≤ d₁ → d₁ < d₂ →
        frecencyExact f (n - d₂) n < frecencyExact f (n - d₁) n) ∧
      (∀ f n d₁ d₂ : ℤ, 0 < f → 0 ≤ d₁ → d₁ < d₂ →
        calculate_frecency f (n - d₂) n ≤ calculate_frecency f (n - d₁) n) ∧
      (∀ f₁ f₂ l n : ℤ, f₁ < f₂ → l ≤ n →
        frecencyExact f₁ l n < frecencyExact f₂ l n) ∧
      (∀ f₁ f₂ l n : ℤ, f₁ < f₂ → l ≤ n →
        calculate_frecency f₁ l n ≤ calculate_frecency f₂ l n) := by
  refine ⟨?_, ?_, ?_, ?_⟩
  · intro f n d₁ d₂ hf h1 h2
    exact frecencyExact_strictAnti f (n - d₁) (n - d₂) n hf (by omega) (by omega)
  · intro f n d₁ d₂ hf h1 h2
    rw [calculate_frecency_eq_round, calculate_frecency_eq_round]
    exact rustRound_mono
      (le_of_lt (frecencyExact_strictAnti f (n - d₁) (n - d₂) n hf (by omega) (by omega)))
  · intro f₁ f₂ l n hf hl
    exact frecencyExact_strictMono_freq f₁ f₂ l n hf hl
  · intro f₁ f₂ l n hf hl
    rw [calculate_frecency_eq_round, calculate_frecency_eq_round]
    exact rustRound_mono (le_of_lt (frecencyExact_strictMono_freq f₁ f₂ l n hf hl))

/-- C9 witness: the amended monotonicity theorem applied at concrete inputs. -/
theorem C9_frecency_monotonicity_witness :
    calculate_frecency 2 0 604800000 ≤ calculate_frecency 2 302400000 604800000 ∧
      calculate_frecency 1 0 604800000 ≤ calculate_frecency 2 0 604800000 := by
  constructor
  · exact C9_frecency_monotonicity.2.1 2 604800000 302400000 604800000
      (by norm_num) (by norm_num) (by norm_num)
  · exact C9_frecency_monotonicity.2.2.2 1 2 0 604800000 (by norm_num) (by norm_num)

/-! ## Data model (datastore.rs structs and the items/tags/item_tags/extension_settings tables)

Tables are lists of rows; rows keep the Rust struct fields.  `syncedAt`,
`visitCount` and `lastVisitAt` are modelled from the spec (the spec's Item
carries `syncedAt`, 0 = never completed a round-trip): sync.rs and the
repository's smoke tests read these columns, but the stale CREATE TABLE in
src/ lacks them; they default to 0 on insert. -/

structure Item where
  id : String
  itemType : String
  content : Option String
  mimeType : String
  metadata : String
  syncId : String
  syncSource : String
  createdAt : ℤ
  updatedAt : ℤ
  deletedAt : ℤ
  starred : ℤ
  archived : ℤ
  syncedAt : ℤ
  visitCount : ℤ
  lastVisitAt : ℤ
deriving Repr, DecidableEq

structure Tag where
  id : String
  name : String
  slug : Option String
  color : String
  parentId : String
  description : String
  metadata : String
  createdAt : ℤ
  updatedAt : ℤ
  frequency : ℤ
  lastUsedAt : ℤ
  frecencyScore : ℤ
deriving Repr, DecidableEq

structure ItemTag where
  id : String
  itemId : String
  tagId : String
  createdAt : ℤ
deriving Repr, DecidableEq

/-- One row of the extension_settings table (id, extensionId, key, value,
updatedAt), unique on id and on (extensionId, key). -/
structure Setting where
  id : String
  extensionId : String
  key : String
  value : String
  updatedAt : ℤ
deriving Repr, DecidableEq

/-- The SQLite database state relevant to the item/tag store and sync. -/
structure DB where
  items : List Item
  tags : List Tag
  itemTags : List ItemTag
  settings : List Setting
deriving Repr, DecidableEq

structure ItemOptions where
  content : Option String := none
  mimeType : Option String := none
  metadata : Option String := none
  syncId : Option String := none
  syncSource : Option String := none
  starred : Option ℤ := none
  archived : Option ℤ := none
deriving Repr, DecidableEq

structure ItemFilter where
  itemType : Option String := none
  starred : Option ℤ := none
  archived : Option ℤ := none
  includeDeleted : Option Bool := none
  limit : Option ℤ := none
  sortBy : Option String := none
deriving Repr, DecidableEq

/-! ## Item operations (datastore.rs) -/

/-- The CHECK constraint of the items table in src/'s CREATE_TABLE_STATEMENTS:
`type IN ('note', 'tagset', 'image')`. -/
def itemsTypeCheck (t : String) : Bool :=
  t == "note" || t == "tagset" || t == "image"

/-- Embedding of `add_item`.  `generate_id` and `now()` are the explicit
`newId` and `now` parameters.  The Rust function performs no type validation
itself; the INSERT fails on the items CHECK constraint (and on a primary-key
collision), surfacing as a rusqlite error. -/
def add_item (db : DB) (newId : String) (now : ℤ) (itemType : String)
    (opts : ItemOptions) : Except String (String × DB) :=
  if db.items.any (fun it => it.id == newId) then
    .error "UNIQUE constraint failed: items.id"
  else if !(itemsTypeCheck itemType) then
    .error "CHECK constraint failed: items"
  else
    .ok (newId,
      { db with items :=
          { id := newId
            itemType := itemType
            content := opts.content
            mimeType := opts.mimeType.getD ""
            metadata := opts.metadata.getD "{}"
            syncId := opts.syncId.getD ""
            syncSource := opts.syncSource.getD ""
            createdAt := now
            updatedAt := now
            deletedAt := 0
            starred := opts.starred.getD 0
            archived := opts.archived.getD 0
            syncedAt := 0
            visitCount := 0
            lastVisitAt := 0 } :: db.items })

/-- Embedding of `get_item`: first row with the given id among non-deleted
rows. -/
def get_item (db : DB) (id : String) : Option Item :=
  db.items.find? (fun it => it.id == id && it.deletedAt == 0)

/-- Embedding of `update_item`: dynamic SET clause over the supplied options,
`updatedAt` always set, guarded by `WHERE id = ? AND deletedAt = 0`; returns
whether any row changed. -/
def update_item (db : DB) (now : ℤ) (id : String) (opts : ItemOptions) :
    Bool × DB :=
  let hasUpdates := opts.content.isSome || opts.mimeType.isSome ||
    opts.metadata.isSome || opts.syncId.isSome || opts.syncSource.isSome ||
    opts.starred.isSome || opts.archived.isSome
  if !hasUpdates then (false, db)
  else
    let applyRow := fun (it : Item) =>
      if it.id == id && it.deletedAt == 0 then
        { it with
          content := match opts.content with
            | some c => some c
            | none => it.content
          mimeType := opts.mimeType.getD it.mimeType
          metadata := opts.metadata.getD it.metadata
          syncId := opts.syncId.getD it.syncId
          syncSource := opts.syncSource.getD it.syncSource
          starred := opts.starred.getD it.starred
          archived := opts.archived.getD it.archived
          updatedAt := now }
      else it
    let changed := db.items.any (fun it => it.id == id && it.deletedAt == 0)
    (changed, { db with items := db.items.map applyRow })

/-- Embedding of `delete_item`: soft delete,
`UPDATE items SET deletedAt = now, updatedAt = now WHERE id = ? AND deletedAt = 0`. -/
def delete_item (db : DB) (now : ℤ) (id : String) : Bool × DB :=
  let changed := db.items.any (fun it => it.id == id && it.deletedAt == 0)
  (changed,
    { db with items := db.items.map (fun it =>
        if it.id == id && it.deletedAt == 0 then
          { it with deletedAt := now, updatedAt := now }
        else it) })

/-- Insertion step for descending sort by an integer key (models ORDER BY
key DESC). -/
def insertByKeyDesc (key : Item → ℤ) (x : Item) : List Item → List Item
  | [] => [x]
  | y :: ys =>
    if key y ≤ key x then x :: y :: ys else y :: insertByKeyDesc key x ys

/-- Descending insertion sort by an integer key. -/
def sortByKeyDesc (key : Item → ℤ) : List Item → List Item
  | [] => []
  | x :: xs => insertByKeyDesc key x (sortByKeyDesc key xs)

/-- Embedding of `query_items`: soft-deleted rows excluded unless
`include_deleted`, optional type/starred/archived equality predicates,
ORDER BY createdAt (or updatedAt) DESC, optional LIMIT (a negative SQLite
LIMIT means no limit). -/
def query_items (db : DB) (filter : ItemFilter) : List Item :=
  let keep := fun (it : Item) =>
    (filter.includeDeleted.getD false || it.deletedAt == 0) &&
    (match filter.itemType with
      | some t => it.itemType == t
      | none => true) &&
    (match filter.starred with
      | some s => it.starred == s
      | none => true) &&
    (match filter.archived with
      | some a => it.archived == a
      | none => true)
  let key := fun (it : Item) =>
    if filter.sortBy == some "updated" then it.updatedAt else it.createdAt
  let sorted := sortByKeyDesc key (db.items.filter keep)
  match filter.limit with
  | some l => if l < 0 then sorted else sorted.take l.toNat
  | none => sorted

/-! ## Tag operations (datastore.rs) -/

/-- Embedding of `get_tag_by_id`. -/
def get_tag_by_id (db : DB) (tagId : String) : Option Tag :=
  db.tags.find? (fun t => t.id == tagId)

/-- Embedding of `get_or_create_tag`: case-insensitive name lookup
(`LOWER(name) = LOWER(?)`); on miss inserts a tag with frequency 0,
lastUsedAt 0, frecencyScore 0 and the trimmed name. -/
def get_or_create_tag (db : DB) (now : ℤ) (newId : String) (name : String) :
    Except String ((Tag × Bool) × DB) :=
  match db.tags.find? (fun t => t.name.toLower == name.toLower) with
  | some t => .ok ((t, false), db)
  | none =>
    if db.tags.any (fun t => t.id == newId) then
      .error "UNIQUE constraint failed: tags.id"
    else
      let slug := (name.toLower.trim).replace " " "-"
      let tag : Tag :=
        { id := newId
          name := name.trim
          slug := some slug
          color := "#999999"
          parentId := ""
          description := ""
          metadata := "{}"
          createdAt := now
          updatedAt := now
          frequency := 0
          lastUsedAt := 0
          frecencyScore := 0 }
      .ok ((tag, true), { db with tags := tag :: db.tags })

/-- Embedding of `tag_item`.  If the (itemId, tagId) link exists it is
returned with `alreadyExists = true` and nothing changes; otherwise the link
row is inserted and, when the tag row exists, its frequency is incremented
and lastUsedAt/frecencyScore/updatedAt refreshed.  The two Rust wall-clock
reads inside one call (the `timestamp` local and `calculate_frecency`'s own
`now()`) are identified as the single `now` parameter. -/
def tag_item (db : DB) (now : ℤ) (linkId itemId tagId : String) :
    Except String ((ItemTag × Bool) × DB) :=
  match db.itemTags.find? (fun l => l.itemId == itemId && l.tagId == tagId) with
  | some l => .ok ((l, true), db)
  | none =>
    if db.itemTags.any (fun l => l.id == linkId) then
      .error "UNIQUE constraint failed: item_tags.id"
    else
      let newLink : ItemTag :=
        { id := linkId, itemId := itemId, tagId := tagId, createdAt := now }
      let db1 := { db with itemTags := newLink :: db.itemTags }
      match get_tag_by_id db1 tagId with
      | some tag =>
        let newFrequency := tag.frequency + 1
        let score := calculate_frecency newFrequency now now
        let db2 :=
          { db1 with tags := db1.tags.map (fun t =>
              if t.id == tagId then
                { t with
                  frequency := newFrequency
                  lastUsedAt := now
                  frecencyScore := score
                  updatedAt := now }
              else t) }
        .ok ((newLink, false), db2)
      | none => .ok ((newLink, false), db1)

/-- Embedding of `untag_item`. -/
def untag_item (db : DB) (itemId tagId : String) : Bool × DB :=
  let changed := db.itemTags.any (fun l => l.itemId == itemId && l.tagId == tagId)
  (changed,
    { db with itemTags :=
        db.itemTags.filter (fun l => !(l.itemId == itemId && l.tagId == tagId)) })

/-- Embedding of `get_item_tags`: the tags joined to an item through
item_tags. -/
def get_item_tags (db : DB) (itemId : String) : List Tag :=
  (db.itemTags.filter (fun l => l.itemId == itemId)).filterMap
    (fun l => db.tags.find? (fun t => t.id == l.tagId))

/-! ## Settings storage (sync.rs `get_setting` / `set_setting`) -/

/-- Embedding of sync.rs `get_setting`. -/
def get_setting (db : DB) (extensionId key : String) : Option String :=
  (db.settings.find? (fun s => s.extensionId == extensionId && s.key == key)).map
    (fun s => s.value)

/-- Embedding of sync.rs `set_setting`: INSERT OR REPLACE keyed by the id
`extensionId-key`, also replacing any row that collides on the
(extensionId, key) unique index. -/
def set_setting (db : DB) (now : ℤ) (extensionId key value : String) : DB :=
  let newId := extensionId ++ "-" ++ key
  { db with settings :=
      { id := newId, extensionId := extensionId, key := key, value := value,
        updatedAt := now } ::
        db.settings.filter (fun s =>
          !(s.id == newId) && !(s.extensionId == extensionId && s.key == key)) }

/-! ## Sync configuration (sync.rs) -/

/-- Partial model of `serde_json::from_str::<String>` (external crate):
decodes a quoted JSON string; exact on escape-free strings, which covers
every value `set_sync_config` writes for serverUrl/apiKey. -/
def jsonDecodeString (s : String) : Option String :=
  let cs := s.data
  if cs.length ≥ 2 && cs.take 1 == ['"'] && cs.drop (cs.length - 1) == ['"'] then
    let inner := (cs.drop 1).take (cs.length - 2)
    if inner.contains '"' || inner.contains '\\' then none
    else some (String.mk inner)
  else none

/-- Model of `serde_json::from_str::<bool>` on the values autoSync stores. -/
def parseRustBool (s : String) : Option Bool :=
  if s == "true" then some true
  else if s == "false" then some false
  else none

def DEFAULT_SERVER_URL : String := "https://peek-node.up.railway.app"

structure SyncConfig where
  serverUrl : String
  apiKey : String
  lastSyncTime : ℤ
  autoSync : Bool
deriving Repr, DecidableEq

/-- Embedding of `get_sync_config`: reads the four sync settings with their
fallbacks.  The `SYNC_SERVER_URL` environment variable read is the explicit
`envServerUrl` parameter. -/
def get_sync_config (db : DB) (envServerUrl : Option String) : SyncConfig :=
  { serverUrl := ((get_setting db "sync" "serverUrl").bind jsonDecodeString).getD
      (envServerUrl.getD DEFAULT_SERVER_URL)
    apiKey := ((get_setting db "sync" "apiKey").bind jsonDecodeString).getD ""
    lastSyncTime := ((get_setting db "sync" "lastSyncTime").bind String.toInt?).getD 0
    autoSync := ((get_setting db "sync" "autoSync").bind parseRustBool).getD false }

/-! ## Server wire types and the network oracle (sync.rs) -/

/-- Server item payload.  On the wire `created_at`/`updated_at` are ISO 8601
strings that sync.rs converts with chrono's parser (`from_iso_string`);
the external parser is not re-modelled, so the fields here are the resulting
Unix-millisecond values, and `metadata` is the serialized JSON text that
`serde_json::to_string` produces from the payload's metadata value. -/
structure ServerItem where
  id : String
  itemType : String
  content : Option String
  tags : List String
  metadata : Option String
  createdAt : ℤ
  updatedAt : ℤ
deriving Repr, DecidableEq

/-- One HTTP request issued by the sync engine, as recorded in the network
trace: method plus the URL built from the trimmed server URL and the path. -/
structure Request where
  method : String
  url : String
  auth : String
deriving Repr, DecidableEq

/-- The remote server's behavior: the pull response, and the response to the
i-th POST of a push batch. -/
structure ServerOracle where
  pullItems : Except String (List ServerItem)
  pushResponse : ℕ → Except String String

/-- `server_url.trim_end_matches('/')`. -/
def trimEndSlashes (s : String) : String :=
  String.mk ((s.toList.reverse.dropWhile (fun c => c == '/')).reverse)

structure PullResult where
  pulled : ℤ
  conflicts : ℤ
deriving Repr, DecidableEq

structure PushResult where
  pushed : ℤ
  failed : ℤ
deriving Repr, DecidableEq

structure SyncResult where
  pulled : ℤ
  pushed : ℤ
  conflicts : ℤ
  lastSyncTime : ℤ
deriving Repr, DecidableEq

structure SyncStatus where
  configured : Bool
  lastSyncTime : ℤ
  pendingCount : ℤ
deriving Repr, DecidableEq

/-! ## Pull and merge (sync.rs) -/

/-- Loop body of `sync_tags_to_item`: for each tag name, get-or-create the
tag, then link it; errors from either call are discarded
(`if let Ok(...)` / `let _ = ...` in the source).  `gen k` and `gen (k+1)`
are the ids `generate_id` would produce for the k-th name's tag and link. -/
def sync_tags_aux (now : ℤ) (gen : ℕ → String) (itemId : String) :
    List String → ℕ → DB → DB
  | [], _, db => db
  | name :: rest, k, db =>
    match get_or_create_tag db now (gen k) name with
    | .error _ => sync_tags_aux now gen itemId rest (k + 2) db
    | .ok ((tag, _), db1) =>
      match tag_item db1 now (gen (k + 1)) itemId tag.id with
      | .error _ => sync_tags_aux now gen itemId rest (k + 2) db1
      | .ok (_, db2) => sync_tags_aux now gen itemId rest (k + 2) db2

/-- Embedding of `sync_tags_to_item`: delete the item's existing item_tags
rows, then attach each remote tag name. -/
def sync_tags_to_item (db : DB) (itemId : String) (tagNames : List String)
    (now : ℤ) (gen : ℕ → String) : DB :=
  sync_tags_aux now gen itemId tagNames 0
    { db with itemTags := db.itemTags.filter (fun l => !(l.itemId == itemId)) }

/-- Embedding of `merge_server_item`: look up a live local item whose syncId
equals the server id; insert when absent, otherwise last-write-wins on
`updated_at` vs `updatedAt` ("pulled" / "conflict" / "skipped"). -/
def merge_server_item (db : DB) (now : ℤ) (gen : ℕ → String)
    (si : ServerItem) : Except String (String × DB) :=
  match db.items.find? (fun it => it.syncId == si.id && it.deletedAt == 0) with
  | none =>
    let opts : ItemOptions :=
      { content := si.content, metadata := si.metadata,
        syncId := some si.id, syncSource := some "server" }
    match add_item db (gen 0) now si.itemType opts with
    | .error e => .error ("Failed to add item: " ++ e)
    | .ok (localId, db1) =>
      let db2 :=
        { db1 with items := db1.items.map (fun it =>
            if it.id == localId then
              { it with
                createdAt := si.createdAt
                updatedAt := si.updatedAt
                syncedAt := now }
            else it) }
      let db3 := sync_tags_to_item db2 localId si.tags now (fun k => gen (k + 1))
      .ok ("pulled", db3)
  | some loc =>
    if si.updatedAt > loc.updatedAt then
      let opts : ItemOptions := { content := si.content, metadata := si.metadata }
      let db1 := (update_item db now loc.id opts).2
      let db2 :=
        { db1 with items := db1.items.map (fun it =>
            if it.id == loc.id then
              { it with updatedAt := si.updatedAt, syncedAt := now }
            else it) }
      let db3 := sync_tags_to_item db2 loc.id si.tags now gen
      .ok ("pulled", db3)
    else if loc.updatedAt > si.updatedAt then
      .ok ("conflict", db)
    else
      .ok ("skipped", db)

/-- Merge loop of `pull_from_server`: merge each pulled item, counting
"pulled" and "conflict" results and skipping failed merges.  The i-th item's
wall-clock read is `clock i` and its fresh ids come from `gen2 i`. -/
def merge_pull_items (gen2 : ℕ → ℕ → String) (clock : ℕ → ℤ) :
    List ServerItem → ℕ → DB → ℤ → ℤ → DB × ℤ × ℤ
  | [], _, db, pulled, conflicts => (db, pulled, conflicts)
  | si :: rest, i, db, pulled, conflicts =>
    match merge_server_item db (clock i) (gen2 i) si with
    | .error _ => merge_pull_items gen2 clock rest (i + 1) db pulled conflicts
    | .ok (res, db1) =>
      if res == "pulled" then
        merge_pull_items gen2 clock rest (i + 1) db1 (pulled + 1) conflicts
      else if res == "conflict" then
        merge_pull_items gen2 clock rest (i + 1) db1 pulled (conflicts + 1)
      else
        merge_pull_items gen2 clock rest (i + 1) db1 pulled conflicts

/-- Embedding of `pull_from_server`: version-disable guard, one GET
(`/items`, or `/items/since/{ts}` when a positive watermark is supplied),
then the merge loop under the DB lock.  Returns the result, the new DB state
and the network trace. -/
def pull_from_server (db : DB) (syncDisabled : Bool) (serverUrl apiKey : String)
    (since : Option ℤ) (oracle : ServerOracle) (gen2 : ℕ → ℕ → String)
    (clock : ℕ → ℤ) : Except String PullResult × DB × List Request :=
  if syncDisabled then
    (.error "Sync disabled due to datastore version mismatch", db, [])
  else
    let path :=
      match since with
      | some ts => if ts > 0 then "/items/since/" ++ toString ts else "/items"
      | none => "/items"
    let req : Request :=
      { method := "GET", url := trimEndSlashes serverUrl ++ path,
        auth := "Bearer " ++ apiKey }
    match oracle.pullItems with
    | .error e => (.error e, db, [req])
    | .ok items =>
      let r := merge_pull_items gen2 clock items 0 db 0 0
      (.ok { pulled := r.2.1, conflicts := r.2.2 }, r.1, [req])

/-! ## Push (sync.rs) -/

structure PushBody where
  itemType : String
  content : Option String
  tags : List String
  metadata : Option String
  syncId : String
deriving Repr, DecidableEq

structure ItemPushData where
  id : String
  body : PushBody
deriving Repr, DecidableEq

/-- Embedding of `query_items_to_push`: incremental mode (positive watermark)
selects live items with empty syncSource or `syncedAt > 0 AND
updatedAt > syncedAt`; full mode selects live items with empty syncSource.
Each selected item is paired with its push payload (tag names, metadata
forwarded when non-empty and not "{}", sync_id falling back to the local
id). -/
def query_items_to_push (db : DB) (lastSyncTime : ℤ) : List ItemPushData :=
  let items :=
    if lastSyncTime > 0 then
      db.items.filter (fun it => it.deletedAt == 0 &&
        (it.syncSource == "" || ((0 : ℤ) < it.syncedAt && it.syncedAt < it.updatedAt)))
    else
      db.items.filter (fun it => it.deletedAt == 0 && it.syncSource == "")
  items.map (fun it =>
    { id := it.id
      body :=
        { itemType := it.itemType
          content := it.content
          tags := (get_item_tags db it.id).map (fun t => t.name)
          metadata :=
            if it.metadata != "" && it.metadata != "{}" then some it.metadata
            else none
          syncId := if it.syncId == "" then it.id else it.syncId } })

/-- Push loop of `push_to_server`: POST each payload; on success record the
server id as syncId with syncSource "server" and syncedAt from the clock;
a failed POST is counted and the batch continues. -/
def push_loop (serverUrl apiKey : String) (clock : ℕ → ℤ) (oracle : ServerOracle) :
    List ItemPushData → ℕ → DB → ℤ → ℤ → DB × ℤ × ℤ × List Request
  | [], _, db, pushed, failed => (db, pushed, failed, [])
  | d :: rest, i, db, pushed, failed =>
    let req : Request :=
      { method := "POST", url := trimEndSlashes serverUrl ++ "/items",
        auth := "Bearer " ++ apiKey }
    match oracle.pushResponse i with
    | .ok sid =>
      let db1 :=
        { db with items := db.items.map (fun it =>
            if it.id == d.id then
              { it with syncId := sid, syncSource := "server", syncedAt := clock i }
            else it) }
      let r := push_loop serverUrl apiKey clock oracle rest (i + 1) db1 (pushed + 1) failed
      (r.1, r.2.1, r.2.2.1, req :: r.2.2.2)
    | .error _ =>
      let r := push_loop serverUrl apiKey clock oracle rest (i + 1) db pushed (failed + 1)
      (r.1, r.2.1, r.2.2.1, req :: r.2.2.2)

/-- Embedding of `push_to_server`: version-disable guard, read the dirty set
under the lock, then POST each item. -/
def push_to_server (db : DB) (syncDisabled : Bool) (serverUrl apiKey : String)
    (lastSyncTime : ℤ) (oracle : ServerOracle) (clock : ℕ → ℤ) :
    Except String PushResult × DB × List Request :=
  if syncDisabled then
    (.error "Sync disabled due to datastore version mismatch", db, [])
  else
    let pushItems := query_items_to_push db lastSyncTime
    let r := push_loop serverUrl apiKey clock oracle pushItems 0 db 0 0
    (.ok { pushed := r.2.1, failed := r.2.2.1 }, r.1, r.2.2.2)

/-! ## Full sync and status (sync.rs) -/

/-- Embedding of `sync_all`: read the config and capture the start time,
fail fast when the API key is empty, pull, push, then store the start time
as the new watermark.  `syncDisabled` models
`is_sync_disabled_due_to_version()` (modelled from the spec: a datastore /
protocol version mismatch is a fatal configuration error; the flag's
definition is not in src/).  `clock 0` is the `datastore::now()` captured
before the pull; later wall-clock reads consume later clock indices. -/
def sync_all (db : DB) (envServerUrl : Option String) (syncDisabled : Bool)
    (oracle : ServerOracle) (gen2 : ℕ → ℕ → String) (clock : ℕ → ℤ) :
    Except String SyncResult × DB × List Request :=
  let config := get_sync_config db envServerUrl
  let startTime := clock 0
  if config.apiKey == "" then
    (.error "Sync not configured: no API key", db, [])
  else
    match pull_from_server db syncDisabled config.serverUrl config.apiKey
      (if config.lastSyncTime > 0 then some config.lastSyncTime else none)
      oracle gen2 (fun t => clock (t + 1)) with
    | (.error e, db1, tr1) => (.error e, db1, tr1)
    | (.ok pullRes, db1, tr1) =>
      match push_to_server db1 syncDisabled config.serverUrl config.apiKey
        config.lastSyncTime oracle (fun t => clock (t + 1000001)) with
      | (.error e, db2, tr2) => (.error e, db2, tr1 ++ tr2)
      | (.ok pushRes, db2, tr2) =>
        let db3 := set_setting db2 (clock 2000001) "sync" "lastSyncTime"
          (toString startTime)
        (.ok { pulled := pullRes.pulled, pushed := pushRes.pushed,
               conflicts := pullRes.conflicts, lastSyncTime := startTime },
          db3, tr1 ++ tr2)

/-- Embedding of `get_sync_status`: configuration summary plus the pending
count `deletedAt = 0 AND (syncSource = '' OR (syncedAt > 0 AND updatedAt >
syncedAt))`; query-only, with a zero fallback, so it is a total function of
the state. -/
def get_sync_status (db : DB) (envServerUrl : Option String) : SyncStatus :=
  let config := get_sync_config db envServerUrl
  let pendingCount : ℤ :=
    ((db.items.filter (fun it => it.deletedAt == 0 &&
      (it.syncSource == "" ||
        ((0 : ℤ) < it.syncedAt && it.syncedAt < it.updatedAt)))).length : ℤ)
  { configured := config.serverUrl != "" && config.apiKey != ""
    lastSyncTime := config.lastSyncTime
    pendingCount := pendingCount }

/-- The pending count written from the spec's words: non-deleted items that
are LOCAL_ONLY (syncId empty) or LOCAL_DIRTY (syncId set and
updatedAt > syncedAt). -/
def pending_count_spec (db : DB) : ℤ :=
  ((db.items.filter (fun it => it.deletedAt == 0 &&
    (it.syncId == "" ||
      (!(it.syncId == "") && it.syncedAt < it.updatedAt)))).length : ℤ)

/-! ## List-level helper lemmas for the table operations -/

theorem map_if_of_all_neg {α : Type} {p : α → Bool} {f : α → α} {l : List α}
    (h : ∀ x ∈ l, p x = false) :
    l.map (fun x => if p x then f x else x) = l := by
  induction l with
  | nil => rfl
  | cons a t ih =>
    simp only [List.map_cons]
    rw [if_neg (by simp [h a (by simp)]), ih (fun x hx => h x (by simp [hx]))]

theorem find?_map_same_pred {α : Type} {p : α → Bool} {f : α → α}
    {l : List α} {x : α} (h : l.find? p = some x)
    (hf : ∀ y, p y = true → p (f y) = true) :
    (l.map (fun y => if p y then f y else y)).find? p = some (f x) := by
  induction l with
  | nil => simp at h
  | cons a t ih =>
    by_cases hpa : p a = true
    · rw [List.find?_cons_of_pos _ hpa] at h
      injection h with h
      subst h
      simp only [List.map_cons, if_pos hpa]
      rw [List.find?_cons_of_pos _ (hf _ hpa)]
    · rw [List.find?_cons_of_neg _ (by simpa using hpa)] at h
      simp only [List.map_cons, if_neg hpa]
      rw [List.find?_cons_of_neg _ (by simpa using hpa)]
      exact ih h

theorem mem_insertByKeyDesc {key : Item → ℤ} {x a : Item} {l : List Item} :
    a ∈ insertByKeyDesc key x l ↔ a = x ∨ a ∈ l := by
  induction l with
  | nil => simp [insertByKeyDesc]
  | cons y t ih =>
    by_cases h : key y ≤ key x
    · simp [insertByKeyDesc, if_pos h]
    · simp only [insertByKeyDesc, if_neg h, List.mem_cons, ih]
      tauto

theorem mem_sortByKeyDesc {key : Item → ℤ} {a : Item} {l : List Item} :
    a ∈ sortByKeyDesc key l ↔ a ∈ l := by
  induction l with
  | nil => simp [sortByKeyDesc]
  | cons y t ih =>
    simp only [sortByKeyDesc, mem_insertByKeyDesc, ih, List.mem_cons]

/-! ## Claim theorems on the item store -/

/-- Concrete database used to exhibit the items-table CHECK constraint. -/
def dbEmpty : DB := { items := [], tags := [], itemTags := [], settings := [] }

/-- C3: evaluation of `add_item` at the failing inputs.  The items CHECK
constraint in src/ is `type IN ('note', 'tagset', 'image')`, so the types
"url" and "text" — which the spec's data model, sync.rs's doc comment and
the repository's own smoke test (`test_item_new_columns` adds a "url" item)
all treat as valid — are rejected, while "note" is accepted; an accepted
insert does get createdAt = updatedAt = now, deletedAt = 0 and an empty
syncId. -/
theorem C3_items_type_check_evaluation :
    add_item dbEmpty "item_1" 1000 "url" {} = .error "CHECK constraint failed: items" ∧
    add_item dbEmpty "item_1" 1000 "text" {} = .error "CHECK constraint failed: items" ∧
    ((add_item dbEmpty "item_1" 1000 "note" {}).toOption.map (fun r =>
        r.2.items.map (fun it =>
          (it.itemType, it.createdAt, it.updatedAt, it.deletedAt, it.syncId)))
      = some [("note", 1000, 1000, 0, "")]) ∧
    ((add_item dbEmpty "item_1" 1000 "tagset" {}).toOption.map (fun r =>
        r.2.items.map (fun it =>
          (it.itemType, it.createdAt, it.updatedAt, it.deletedAt, it.syncId)))
      = some [("tagset", 1000, 1000, 0, "")]) := by
  refine ⟨rfl, rfl, rfl, rfl⟩

/-- C4: soft delete.  For a live item, `delete_item` returns true, leaves
item_tags untouched, sets deletedAt = updatedAt = now on the row (so
`get_item` no longer returns it while an include-deleted query still does,
with deletedAt ≠ 0); on an absent or already-deleted id it returns false and
changes nothing. -/
theorem C4_soft_delete (db : DB) (now : ℤ) (id : String) (hnow : now ≠ 0) :
    (∀ it, get_item db id = some it →
      (delete_item db now id).1 = true ∧
      (delete_item db now id).2.itemTags = db.itemTags ∧
      get_item (delete_item db now id).2 id = none ∧
      ({ it with deletedAt := now, updatedAt := now } ∈
        query_items (delete_item db now id).2 { includeDeleted := some true }) ∧
      ({ it with deletedAt := now, updatedAt := now } : Item).deletedAt ≠ 0) ∧
    (get_item db id = none → delete_item db now id = (false, db)) := by
  constructor
  · intro it hit
    have hfind : db.items.find? (fun x => x.id == id && x.deletedAt == 0) = some it := hit
    have hmem : it ∈ db.items := List.mem_of_find?_eq_some hfind
    have hpred : (it.id == id && it.deletedAt == 0) = true := by
      simpa using List.find?_some hfind
    refine ⟨?_, rfl, ?_, ?_, by simpa using hnow⟩
    · simp only [delete_item]
      exact List.any_eq_true.mpr ⟨it, hmem, hpred⟩
    · simp only [delete_item, get_item]
      rw [List.find?_eq_none]
      intro x hx
      simp only [List.mem_map] at hx
      obtain ⟨y, hy, hxy⟩ := hx
      subst hxy
      by_cases hgy : (y.id == id && y.deletedAt == 0) = true
      · rw [if_pos hgy]
        simp [hnow]
      · rw [if_neg hgy]
        simpa using hgy
    · simp only [delete_item, query_items]
      rw [mem_sortByKeyDesc]
      have hm : ({ it with deletedAt := now, updatedAt := now } : Item) ∈
          (db.items.map (fun x =>
            if x.id == id && x.deletedAt == 0 then
              { x with deletedAt := now, updatedAt := now }
            else x)) := by
        refine List.mem_map.mpr ⟨it, hmem, ?_⟩
        rw [if_pos hpred]
      simp only [List.mem_filter]
      exact ⟨hm, by simp⟩
  · intro hnone
    have hall : ∀ x ∈ db.items, (x.id == id && x.deletedAt == 0) = false := by
      intro x hx
      have hx2 := List.find?_eq_none.mp hnone x hx
      simpa using hx2
    simp only [delete_item, Prod.mk.injEq]
    constructor
    · rw [List.any_eq_false]
      intro x hx
      simp [hall x hx]
    · rcases db with ⟨items, tags, itemTags, settings⟩
      simp only [DB.mk.injEq, and_true, true_and]
      exact map_if_of_all_neg hall

/-- The link row `tag_item` inserts for a fresh (itemId, tagId) pair. -/
def mkLink (linkId itemId tagId : String) (now : ℤ) : ItemTag :=
  { id := linkId, itemId := itemId, tagId := tagId, createdAt := now }

/-- C5: `tag_item` is idempotent.  With no existing link, a fresh link id and
an existing tag row, the first call inserts the link, bumps the tag's
frequency by exactly one, stamps lastUsedAt = now and recomputes
frecencyScore from the new frequency and now, and reports
alreadyExists = false; a second call for the same pair returns the stored
link with alreadyExists = true and the state — frequency, lastUsedAt,
frecencyScore included — completely unchanged. -/
theorem C5_tag_item_idempotent (db : DB) (now now₂ : ℤ)
    (linkId linkId₂ itemId tagId : String) (t : Tag)
    (hlink : db.itemTags.find? (fun l => l.itemId == itemId && l.tagId == tagId) = none)
    (hfresh : ∀ l ∈ db.itemTags, l.id ≠ linkId)
    (htag : get_tag_by_id db tagId = some t) :
    ∃ db₁,
      tag_item db now linkId itemId tagId =
        .ok ((mkLink linkId itemId tagId now, false), db₁) ∧
      db₁.itemTags = mkLink linkId itemId tagId now :: db.itemTags ∧
      db₁.items = db.items ∧
      get_tag_by_id db₁ tagId = some
        { t with
          frequency := t.frequency + 1
          lastUsedAt := now
          frecencyScore := calculate_frecency (t.frequency + 1) now now
          updatedAt := now } ∧
      (∀ t₂ ∈ db.tags, t₂.id ≠ tagId → t₂ ∈ db₁.tags) ∧
      tag_item db₁ now₂ linkId₂ itemId tagId =
        .ok ((mkLink linkId itemId tagId now, true), db₁) := by
  have hnofresh : (db.itemTags.any (fun l => l.id == linkId)) = false := by
    rw [List.any_eq_false]
    intro l hl
    simpa using hfresh l hl
  refine ⟨{ db with
      itemTags := mkLink linkId itemId tagId now :: db.itemTags
      tags := db.tags.map (fun tg =>
        if tg.id == tagId then
          { tg with
            frequency := t.frequency + 1
            lastUsedAt := now
            frecencyScore := calculate_frecency (t.frequency + 1) now now
            updatedAt := now }
        else tg) }, ?_, rfl, rfl, ?_, ?_, ?_⟩
  · have htg : db.tags.find? (fun tg => tg.id == tagId) = some t := htag
    simp only [tag_item, hlink, hnofresh, Bool.false_eq_true, if_false, get_tag_by_id]
    rw [htg]
    rfl
  · simp only [get_tag_by_id] at htag ⊢
    exact find?_map_same_pred htag (fun y hy => hy)
  · intro t₂ ht₂ hne
    refine List.mem_map.mpr ⟨t₂, ht₂, ?_⟩
    rw [if_neg (by simpa using hne)]
  · simp only [tag_item]
    rw [show (List.find? (fun l => l.itemId == itemId && l.tagId == tagId)
        (mkLink linkId itemId tagId now :: db.itemTags))
      = some (mkLink linkId itemId tagId now) from
        List.find?_cons_of_pos _ (by simp [mkLink])]

/-- C10: tagging with a nonexistent tag id still succeeds.  When no row in
the tags table has the given id, `tag_item` inserts the dangling join row,
reports alreadyExists = false, and leaves the tags table (and everything
else) unchanged: the frequency/frecency update is silently skipped rather
than surfacing a not-found error. -/
theorem C10_tag_item_missing_tag (db : DB) (now : ℤ)
    (linkId itemId tagId : String)
    (hlink : db.itemTags.find? (fun l => l.itemId == itemId && l.tagId == tagId) = none)
    (hfresh : ∀ l ∈ db.itemTags, l.id ≠ linkId)
    (htag : get_tag_by_id db tagId = none) :
    tag_item db now linkId itemId tagId =
      .ok ((mkLink linkId itemId tagId now, false),
        { db with itemTags := mkLink linkId itemId tagId now :: db.itemTags }) := by
  have hnofresh : (db.itemTags.any (fun l => l.id == linkId)) = false := by
    rw [List.any_eq_false]
    intro l hl
    simpa using hfresh l hl
  have htg : db.tags.find? (fun tg => tg.id == tagId) = none := htag
  simp only [tag_item, hlink, hnofresh, Bool.false_eq_true, if_false, get_tag_by_id]
  rw [htg]
  rfl

/-! ## Concrete states for witnesses and counterexamples -/

/-- A live item with empty sync fields, as `add_item` would create it. -/
def itemA : Item :=
  { id := "A", itemType := "note", content := some "c", mimeType := "",
    metadata := "{}", syncId := "", syncSource := "", createdAt := 1,
    updatedAt := 1, deletedAt := 0, starred := 0, archived := 0,
    syncedAt := 0, visitCount := 0, lastVisitAt := 0 }

/-- A one-item database holding `itemA`. -/
def dbOneItem : DB := { items := [itemA], tags := [], itemTags := [], settings := [] }

/-- An existing tag row with frequency 3. -/
def tagT : Tag :=
  { id := "T", name := "work", slug := some "work", color := "#999999",
    parentId := "", description := "", metadata := "{}", createdAt := 1,
    updatedAt := 1, frequency := 3, lastUsedAt := 0, frecencyScore := 0 }

/-- A database holding only the tag `tagT`. -/
def dbOneTag : DB := { items := [], tags := [tagT], itemTags := [], settings := [] }

/-- C4 witness: soft delete on a concrete one-item database. -/
theorem C4_soft_delete_witness :
    (delete_item dbOneItem 5 "A").1 = true ∧
      get_item (delete_item dbOneItem 5 "A").2 "A" = none ∧
      (delete_item dbOneItem 5 "A").2.itemTags = dbOneItem.itemTags := by
  have h := (C4_soft_delete dbOneItem 5 "A" (by norm_num)).1 itemA rfl
  exact ⟨h.1, h.2.2.1, h.2.1⟩

/-- C5 witness: tagging a concrete item twice with an existing tag. -/
theorem C5_tag_item_idempotent_witness :
    ∃ db₁,
      tag_item dbOneTag 7 "L1" "I" "T" = .ok ((mkLink "L1" "I" "T" 7, false), db₁) ∧
      get_tag_by_id db₁ "T" = some
        { tagT with
          frequency := 4
          lastUsedAt := 7
          frecencyScore := calculate_frecency 4 7 7
          updatedAt := 7 } ∧
      tag_item db₁ 8 "L2" "I" "T" = .ok ((mkLink "L1" "I" "T" 7, true), db₁) := by
  obtain ⟨db₁, h1, _, _, h4, _, h6⟩ :=
    C5_tag_item_idempotent dbOneTag 7 8 "L1" "L2" "I" "T" tagT rfl (by simp [dbOneTag]) rfl
  exact ⟨db₁, h1, h4, h6⟩

/-- C10 witness: tagging with a tag id that has no tags-table row. -/
theorem C10_tag_item_missing_tag_witness :
    tag_item dbOneItem 7 "L1" "A" "ghost" =
      .ok ((mkLink "L1" "A" "ghost" 7, false),
        { dbOneItem with itemTags := [mkLink "L1" "A" "ghost" 7] }) :=
  C10_tag_item_missing_tag dbOneItem 7 "L1" "A" "ghost" rfl (by simp [dbOneItem]) rfl

/-! ## C6: update_item -/

theorem itemOptions_ne_default (opts : ItemOptions) (h : opts ≠ {}) :
    (opts.content.isSome || opts.mimeType.isSome || opts.metadata.isSome ||
      opts.syncId.isSome || opts.syncSource.isSome || opts.starred.isSome ||
      opts.archived.isSome) = true := by
  rcases opts with ⟨c, m, md, si, ss, st, ar⟩
  cases c <;> cases m <;> cases md <;> cases si <;> cases ss <;> cases st <;>
    cases ar <;> simp_all [ItemOptions.mk.injEq]

theorem update_item_no_live (db : DB) (now : ℤ) (id : String) (opts : ItemOptions)
    (h0 : ∀ x ∈ db.items, (x.id == id && x.deletedAt == 0) = false) :
    update_item db now id opts = (false, db) := by
  simp only [update_item]
  split
  · rfl
  · simp only [Prod.mk.injEq]
    constructor
    · rw [List.any_eq_false]
      intro x hx
      simp [h0 x hx]
    · rcases db with ⟨items, tags, itemTags, settings⟩
      simp only [DB.mk.injEq, and_true, true_and]
      exact map_if_of_all_neg h0

/-- C6 counterexample: `update_item` does modify syncId when the option is
supplied.  On a live item with empty syncId, an update carrying
`sync_id = "srv_9"` succeeds and rewrites the stored syncId — the claim that
updateItem never modifies syncId/syncSource fails. -/
theorem C6_counterexample :
    (update_item dbOneItem 5 "A" { syncId := some "srv_9" }).1 = true ∧
      ((update_item dbOneItem 5 "A" { syncId := some "srv_9" }).2.items.map
        Item.syncId) = ["srv_9"] ∧
      itemA.syncId = "" := ⟨rfl, rfl, rfl⟩

/-- C6 (amended): `update_item` returns false when the item is absent or
soft-deleted (leaving the state unchanged); on success every supplied field
overwrites the stored value and updatedAt is set to now; syncedAt is never
modified, but syncId and syncSource ARE modified whenever the corresponding
option is supplied — the options struct exposes them to any caller, so the
"only through the Sync Engine" restriction is not enforced by update_item
itself. -/
theorem C6_update_item (db : DB) (now : ℤ) (id : String) (opts : ItemOptions) :
    (get_item db id = none → update_item db now id opts = (false, db)) ∧
    (∀ it, get_item db id = some it → opts ≠ {} →
      (update_item db now id opts).1 = true ∧
      ((update_item db now id opts).2.items.find?
          (fun x => x.id == id && x.deletedAt == 0)) = some
        { it with
          content := match opts.content with
            | some c => some c
            | none => it.content
          mimeType := opts.mimeType.getD it.mimeType
          metadata := opts.metadata.getD it.metadata
          syncId := opts.syncId.getD it.syncId
          syncSource := opts.syncSource.getD it.syncSource
          starred := opts.starred.getD it.starred
          archived := opts.archived.getD it.archived
          updatedAt := now } ∧
      (∀ x ∈ db.items, (x.id == id && x.deletedAt == 0) = false →
        x ∈ (update_item db now id opts).2.items) ∧
      (update_item db now id opts).2.itemTags = db.itemTags ∧
      (update_item db now id opts).2.tags = db.tags) := by
  constructor
  · intro hnone
    refine update_item_no_live db now id opts (fun x hx => ?_)
    simpa using List.find?_eq_none.mp hnone x hx
  · intro it hit hne
    have hfind : db.items.find? (fun x => x.id == id && x.deletedAt == 0) = some it := hit
    have hmem : it ∈ db.items := List.mem_of_find?_eq_some hfind
    have hpred : (it.id == id && it.deletedAt == 0) = true := by
      simpa using List.find?_some hfind
    have hU := itemOptions_ne_default opts hne
    refine ⟨?_, ?_, ?_, ?_, ?_⟩
    · simp only [update_item, hU, Bool.not_true, Bool.false_eq_true, if_false]
      exact List.any_eq_true.mpr ⟨it, hmem, hpred⟩
    · simp only [update_item, hU, Bool.not_true, Bool.false_eq_true, if_false]
      exact find?_map_same_pred hfind (fun y hy => hy)
    · intro x hx hxpred
      simp only [update_item, hU, Bool.not_true, Bool.false_eq_true, if_false]
      exact List.mem_map.mpr ⟨x, hx, by rw [if_neg (by simp [hxpred])]⟩
    · simp only [update_item, hU, Bool.not_true, Bool.false_eq_true, if_false]
    · simp only [update_item, hU, Bool.not_true, Bool.false_eq_true, if_false]

/-- C6 witness: a content update on a concrete live item. -/
theorem C6_update_item_witness :
    (update_item dbOneItem 9 "A" { content := some "new" }).1 = true ∧
      ((update_item dbOneItem 9 "A" { content := some "new" }).2.items.find?
        (fun x => x.id == "A" && x.deletedAt == 0)) = some
          { itemA with content := some "new", updatedAt := 9 } ∧
      update_item dbOneItem 9 "absent" { content := some "new" } =
        (false, dbOneItem) := by
  have h := (C6_update_item dbOneItem 9 "A" { content := some "new" }).2 itemA rfl
    (by simp [ItemOptions.mk.injEq])
  have habs := (C6_update_item dbOneItem 9 "absent" { content := some "new" }).1 rfl
  exact ⟨h.1, h.2.1, habs⟩

/-! ## C7: sync status pending count -/

/-- The item `add_item` creates when the caller supplies
`sync_source = "server"` but no sync id: syncId stays empty while
syncSource is "server". -/
def itemServerSourced : Item :=
  { id := "A", itemType := "note", content := none, mimeType := "",
    metadata := "{}", syncId := "", syncSource := "server", createdAt := 5,
    updatedAt := 5, deletedAt := 0, starred := 0, archived := 0,
    syncedAt := 0, visitCount := 0, lastVisitAt := 0 }

/-- A database holding only `itemServerSourced`. -/
def dbServerSourced : DB :=
  { items := [itemServerSourced], tags := [], itemTags := [], settings := [] }

/-- C7 counterexample: the status query counts by syncSource, not by the
spec's syncId-based sync states.  One `add_item` call with
`sync_source = "server"` yields a live item with empty syncId (LOCAL_ONLY
per the spec, so spec pending count 1) that the code's pending_count query
does not count (syncSource ≠ '' and syncedAt = 0). -/
theorem C7_counterexample :
    add_item dbEmpty "A" 5 "note" { syncSource := some "server" } =
      .ok ("A", dbServerSourced) ∧
    (get_sync_status dbServerSourced none).pendingCount = 0 ∧
    pending_count_spec dbServerSourced = 1 ∧ ((0 : ℤ) ≠ 1) :=
  ⟨rfl, rfl, rfl, by norm_num⟩

/-- C7 (amended): `get_sync_status` is a total (never-failing) pure function
of the state, and its pending_count equals the number of items the
incremental push phase would select: non-deleted items with empty syncSource
(never acknowledged by the server) or with syncedAt > 0 and
updatedAt > syncedAt (modified since the last acknowledged round-trip). -/
theorem C7_pending_count_matches_push (db : DB) (env : Option String) (t : ℤ)
    (ht : 0 < t) :
    (get_sync_status db env).pendingCount =
      ((query_items_to_push db t).length : ℤ) := by
  simp only [get_sync_status, query_items_to_push, gt_iff_lt, if_pos ht,
    List.length_map]

/-- C7 witness: the pending/push agreement evaluated on a concrete state. -/
theorem C7_pending_count_matches_push_witness :
    (get_sync_status dbOneItem none).pendingCount =
      ((query_items_to_push dbOneItem 5).length : ℤ) :=
  C7_pending_count_matches_push dbOneItem none 5 (by norm_num)

/-! ## C1: merge_server_item — supporting lemmas -/

/-- Whether an (itemId, tagId) link is present. -/
def hasLink (lts : List ItemTag) (iid tid : String) : Bool :=
  lts.any (fun l => l.itemId == iid && l.tagId == tid)

theorem find?_map_pred {α : Type} (p q : α → Bool) (f : α → α) {l : List α}
    {x : α} (h : l.find? p = some x)
    (hcompat : ∀ y, p (if q y then f y else y) = p y) :
    (l.map (fun y => if q y then f y else y)).find? p
      = some (if q x then f x else x) := by
  induction l with
  | nil => simp at h
  | cons a t ih =>
    by_cases hpa : p a = true
    · rw [List.find?_cons_of_pos _ hpa] at h
      injection h with h
      subst h
      simp only [List.map_cons]
      rw [List.find?_cons_of_pos _ (by rw [hcompat]; exact hpa)]
    · rw [List.find?_cons_of_neg _ (by simpa using hpa)] at h
      simp only [List.map_cons]
      rw [List.find?_cons_of_neg _ (by rw [hcompat]; simpa using hpa)]
      exact ih h

theorem find?_id_of_nodup {l : List Item} (hnd : (l.map Item.id).Nodup)
    {x : Item} (hx : x ∈ l) (p : Item → Bool)
    (hp : ∀ y, p y = true → y.id = x.id) (hpx : p x = true) :
    l.find? p = some x := by
  induction l with
  | nil => simp at hx
  | cons a t ih =>
    rcases List.mem_cons.mp hx with hax | hxt
    · subst hax
      exact List.find?_cons_of_pos _ hpx
    · by_cases hpa : p a = true
      · exfalso
        have hida : a.id = x.id := hp a hpa
        have hmt : x.id ∈ t.map Item.id := List.mem_map_of_mem _ hxt
        have := (List.nodup_cons.mp hnd).1
        exact this (hida ▸ hmt)
      · rw [List.find?_cons_of_neg _ (by simpa using hpa)]
        exact ih (List.nodup_cons.mp hnd).2 hxt

theorem find?_name_eq_of_map_eq {l₁ l₂ : List Tag}
    (h : l₁.map (fun t => (t.id, t.name)) = l₂.map (fun t => (t.id, t.name)))
    (n : String) :
    (l₁.find? (fun t => t.name.toLower == n.toLower)).map (fun t => t.id)
      = (l₂.find? (fun t => t.name.toLower == n.toLower)).map (fun t => t.id) := by
  induction l₁ generalizing l₂ with
  | nil =>
    have h2 : l₂.map (fun t => (t.id, t.name)) = [] := h.symm
    rw [List.map_eq_nil_iff] at h2
    subst h2
    rfl
  | cons a t ih =>
    cases l₂ with
    | nil => simp at h
    | cons b t₂ =>
      simp only [List.map_cons, List.cons.injEq, Prod.mk.injEq] at h
      obtain ⟨⟨hid, hname⟩, hmaps⟩ := h
      by_cases hpa : (a.name.toLower == n.toLower) = true
      · have e1 : (a :: t).find? (fun tg => tg.name.toLower == n.toLower) = some a :=
          List.find?_cons_of_pos _ hpa
        have e2 : (b :: t₂).find? (fun tg => tg.name.toLower == n.toLower) = some b :=
          List.find?_cons_of_pos _ (by rw [← hname]; exact hpa)
        rw [e1, e2]
        simp [hid]
      · have e1 : (a :: t).find? (fun tg => tg.name.toLower == n.toLower)
            = t.find? (fun tg => tg.name.toLower == n.toLower) :=
          List.find?_cons_of_neg _ (by simpa using hpa)
        have e2 : (b :: t₂).find? (fun tg => tg.name.toLower == n.toLower)
            = t₂.find? (fun tg => tg.name.toLower == n.toLower) :=
          List.find?_cons_of_neg _ (by rw [← hname]; simpa using hpa)
        rw [e1, e2]
        exact ih hmaps

theorem hasLink_filter_ne (lts : List ItemTag) (iid itemId tid : String)
    (h : iid ≠ itemId) :
    hasLink (lts.filter (fun l => !(l.itemId == itemId))) iid tid
      = hasLink lts iid tid := by
  induction lts with
  | nil => rfl
  | cons a t ih =>
    rw [List.filter_cons]
    by_cases ha : (a.itemId == itemId) = true
    · rw [if_neg (by simp [ha])]
      rw [ih]
      have hne : (a.itemId == iid) = false := by
        have haa : a.itemId = itemId := by simpa using ha
        subst haa
        exact beq_eq_false_iff_ne.mpr (fun hh => h hh.symm)
      simp [hasLink, hne]
    · have ha2 : (a.itemId == itemId) = false := by simpa using ha
      rw [if_pos (by simp [ha2])]
      simp only [hasLink, List.any_cons] at ih ⊢
      rw [ih]

theorem hasLink_filter_self (lts : List ItemTag) (itemId tid : String) :
    hasLink (lts.filter (fun l => !(l.itemId == itemId))) itemId tid = false := by
  rw [hasLink, List.any_eq_false]
  intro l hl
  have := (List.mem_filter.mp hl).2
  simp only [Bool.not_eq_true'] at this
  simp [this]

/-- Behavior of the `sync_tags_to_item` loop when every remote tag name
resolves to an existing tag and the generated link ids are fresh and
pairwise distinct: items and settings are untouched, tag ids and names are
preserved (only frequency/recency fields change), links of other items are
untouched, and after the loop a tag is linked to the item iff it was already
linked or some remote name resolves to it. -/
theorem sync_tags_aux_spec (now : ℤ) (gen : ℕ → String) (itemId : String) :
    ∀ (names : List String) (k : ℕ) (db : DB),
    (∀ n ∈ names,
      (db.tags.find? (fun tg => tg.name.toLower == n.toLower)).isSome = true) →
    (∀ j, k ≤ j → j < k + 2 * names.length → ∀ l ∈ db.itemTags, l.id ≠ gen j) →
    (∀ j j₂, k ≤ j → j < j₂ → j₂ < k + 2 * names.length → gen j ≠ gen j₂) →
    ((sync_tags_aux now gen itemId names k db).items = db.items ∧
     (sync_tags_aux now gen itemId names k db).settings = db.settings ∧
     (sync_tags_aux now gen itemId names k db).tags.map (fun t => (t.id, t.name))
        = db.tags.map (fun t => (t.id, t.name)) ∧
     (∀ iid, iid ≠ itemId → ∀ tid,
        hasLink (sync_tags_aux now gen itemId names k db).itemTags iid tid
          = hasLink db.itemTags iid tid) ∧
     (∀ tid,
        hasLink (sync_tags_aux now gen itemId names k db).itemTags itemId tid = true ↔
        (hasLink db.itemTags itemId tid = true ∨
          ∃ n ∈ names, (db.tags.find? (fun tg => tg.name.toLower == n.toLower)).map
            (fun t => t.id) = some tid))) := by
  intro names
  induction names with
  | nil =>
    intro k db hres hfresh hdist
    refine ⟨rfl, rfl, rfl, fun iid h tid => rfl, fun tid => ?_⟩
    simp [sync_tags_aux]
  | cons n rest ih =>
    intro k db hres hfresh hdist
    obtain ⟨t, hfind⟩ := Option.isSome_iff_exists.mp (hres n (by simp))
    have hgoc : get_or_create_tag db now (gen k) n = .ok ((t, false), db) := by
      unfold get_or_create_tag
      rw [hfind]
    have hlen : (n :: rest).length = rest.length + 1 := rfl
    by_cases hL : hasLink db.itemTags itemId t.id = true
    · -- the link already exists: tag_item is a no-op
      obtain ⟨l₀, hl₀mem, hl₀pred⟩ := List.any_eq_true.mp hL
      have hflsome : (db.itemTags.find?
          (fun l => l.itemId == itemId && l.tagId == t.id)).isSome = true := by
        rw [List.find?_isSome]
        exact ⟨l₀, hl₀mem, hl₀pred⟩
      obtain ⟨l₁, hfl⟩ := Option.isSome_iff_exists.mp hflsome
      have htick : tag_item db now (gen (k + 1)) itemId t.id = .ok ((l₁, true), db) := by
        unfold tag_item
        rw [hfl]
      have hstep : sync_tags_aux now gen itemId (n :: rest) k db
          = sync_tags_aux now gen itemId rest (k + 2) db := by
        simp only [sync_tags_aux, hgoc, htick]
      rw [hstep]
      have hres2 : ∀ n₂ ∈ rest,
          (db.tags.find? (fun tg => tg.name.toLower == n₂.toLower)).isSome = true :=
        fun n₂ hn₂ => hres n₂ (by simp [hn₂])
      have hfresh2 : ∀ j, k + 2 ≤ j → j < (k + 2) + 2 * rest.length →
          ∀ l ∈ db.itemTags, l.id ≠ gen j := by
        intro j h1 h2 l hl
        exact hfresh j (by omega) (by rw [hlen]; omega) l hl
      have hdist2 : ∀ j j₂, k + 2 ≤ j → j < j₂ → j₂ < (k + 2) + 2 * rest.length →
          gen j ≠ gen j₂ := by
        intro j j₂ h1 h2 h3
        exact hdist j j₂ (by omega) h2 (by rw [hlen]; omega)
      obtain ⟨h1, h2, h3, h4, h5⟩ := ih (k + 2) db hres2 hfresh2 hdist2
      refine ⟨h1, h2, h3, h4, fun tid => ?_⟩
      rw [h5 tid]
      constructor
      · rintro (h | ⟨n₂, hn₂, hmap⟩)
        · exact Or.inl h
        · exact Or.inr ⟨n₂, by simp [hn₂], hmap⟩
      · rintro (h | ⟨n₂, hn₂, hmap⟩)
        · exact Or.inl h
        · rcases List.mem_cons.mp hn₂ with hh | hh
          · subst hh
            rw [hfind] at hmap
            simp only [Option.map] at hmap
            injection hmap with hmap
            subst hmap
            exact Or.inl hL
          · exact Or.inr ⟨n₂, hh, hmap⟩
    · -- the link is new: tag_item inserts it and updates the tag's stats
      have hL0 : hasLink db.itemTags itemId t.id = false := by
        simpa using hL
      have hfl : db.itemTags.find?
          (fun l => l.itemId == itemId && l.tagId == t.id) = none := by
        rw [List.find?_eq_none]
        intro x hx
        have := List.any_eq_false.mp hL0 x hx
        simpa using this
      have hpk : (db.itemTags.any (fun l => l.id == gen (k + 1))) = false := by
        rw [List.any_eq_false]
        intro l hl
        have := hfresh (k + 1) (by omega) (by rw [hlen]; omega) l hl
        simp [this]
      have ht_mem : t ∈ db.tags := List.mem_of_find?_eq_some hfind
      cases hgt : db.tags.find? (fun tg => tg.id == t.id) with
      | none =>
        exact absurd (List.find?_eq_none.mp hgt t ht_mem) (by simp)
      | some t₂ =>
        have htick : tag_item db now (gen (k + 1)) itemId t.id =
            .ok ((mkLink (gen (k + 1)) itemId t.id now, false),
              { db with
                itemTags := mkLink (gen (k + 1)) itemId t.id now :: db.itemTags
                tags := db.tags.map (fun tg =>
                  if tg.id == t.id then
                    { tg with
                      frequency := t₂.frequency + 1
                      lastUsedAt := now
                      frecencyScore := calculate_frecency (t₂.frequency + 1) now now
                      updatedAt := now }
                  else tg) }) := by
          have hgt2 : db.tags.find? (fun tg => tg.id == t.id) = some t₂ := hgt
          simp only [tag_item, hfl, hpk, Bool.false_eq_true, if_false, get_tag_by_id]
          rw [hgt2]
          rfl
        have hstep : sync_tags_aux now gen itemId (n :: rest) k db
            = sync_tags_aux now gen itemId rest (k + 2)
              { db with
                itemTags := mkLink (gen (k + 1)) itemId t.id now :: db.itemTags
                tags := db.tags.map (fun tg =>
                  if tg.id == t.id then
                    { tg with
                      frequency := t₂.frequency + 1
                      lastUsedAt := now
                      frecencyScore := calculate_frecency (t₂.frequency + 1) now now
                      updatedAt := now }
                  else tg) } := by
          simp only [sync_tags_aux, hgoc, htick]
        rw [hstep]
        have hmap2 : (db.tags.map (fun tg =>
            if tg.id == t.id then
              { tg with
                frequency := t₂.frequency + 1
                lastUsedAt := now
                frecencyScore := calculate_frecency (t₂.frequency + 1) now now
                updatedAt := now }
            else tg)).map (fun tg => (tg.id, tg.name))
              = db.tags.map (fun tg => (tg.id, tg.name)) := by
          rw [List.map_map]
          apply List.map_congr_left
          intro tg _
          by_cases htg : (tg.id == t.id) = true
          · have htg2 : tg.id = t.id := by simpa using htg
            simp [htg2]
          · have htg2 : ¬(tg.id = t.id) := by simpa using htg
            simp [htg2]
        have hres2 : ∀ n₂ ∈ rest,
            ((db.tags.map (fun tg =>
              if tg.id == t.id then
                { tg with
                  frequency := t₂.frequency + 1
                  lastUsedAt := now
                  frecencyScore := calculate_frecency (t₂.frequency + 1) now now
                  updatedAt := now }
              else tg)).find?
                (fun tg => tg.name.toLower == n₂.toLower)).isSome = true := by
          intro n₂ hn₂
          have hh := find?_name_eq_of_map_eq hmap2 n₂
          have hiso := congrArg Option.isSome hh
          simp only [Option.isSome_map'] at hiso
          rw [hiso]
          exact hres n₂ (by simp [hn₂])
        have hfresh2 : ∀ j, k + 2 ≤ j → j < (k + 2) + 2 * rest.length →
            ∀ l ∈ (mkLink (gen (k + 1)) itemId t.id now :: db.itemTags),
              l.id ≠ gen j := by
          intro j h1 h2 l hl
          rcases List.mem_cons.mp hl with hh | hh
          · subst hh
            exact hdist (k + 1) j (by omega) (by omega) (by rw [hlen]; omega)
          · exact hfresh j (by omega) (by rw [hlen]; omega) l hh
        have hdist2 : ∀ j j₂, k + 2 ≤ j → j < j₂ → j₂ < (k + 2) + 2 * rest.length →
            gen j ≠ gen j₂ := by
          intro j j₂ h1 h2 h3
          exact hdist j j₂ (by omega) h2 (by rw [hlen]; omega)
        obtain ⟨h1, h2, h3, h4, h5⟩ := ih (k + 2)
          { db with
            itemTags := mkLink (gen (k + 1)) itemId t.id now :: db.itemTags
            tags := db.tags.map (fun tg =>
              if tg.id == t.id then
                { tg with
                  frequency := t₂.frequency + 1
                  lastUsedAt := now
                  frecencyScore := calculate_frecency (t₂.frequency + 1) now now
                  updatedAt := now }
              else tg) } hres2 hfresh2 hdist2
        refine ⟨h1, h2, h3.trans hmap2, ?_, ?_⟩
        · intro iid hiid tid
          rw [h4 iid hiid tid]
          have hne : (itemId == iid) = false :=
            beq_eq_false_iff_ne.mpr (fun hh => hiid hh.symm)
          simp [hasLink, mkLink, hne]
        · intro tid
          rw [h5 tid]
          have hrestmap : ∀ n₂ : String,
              ((db.tags.map (fun tg =>
                if tg.id == t.id then
                  { tg with
                    frequency := t₂.frequency + 1
                    lastUsedAt := now
                    frecencyScore := calculate_frecency (t₂.frequency + 1) now now
                    updatedAt := now }
                else tg)).find?
                  (fun tg => tg.name.toLower == n₂.toLower)).map (fun tg => tg.id)
              = (db.tags.find? (fun tg => tg.name.toLower == n₂.toLower)).map
                  (fun tg => tg.id) :=
            fun n₂ => find?_name_eq_of_map_eq hmap2 n₂
          have hconsLink : hasLink
              (mkLink (gen (k + 1)) itemId t.id now :: db.itemTags) itemId tid
              = ((t.id == tid) || hasLink db.itemTags itemId tid) := by
            simp [hasLink, mkLink]
          rw [hconsLink]
          constructor
          · rintro (h | ⟨n₂, hn₂, hmap⟩)
            · rcases Bool.or_eq_true .. |>.mp h with hh | hh
              · have : t.id = tid := by simpa using hh
                subst this
                exact Or.inr ⟨n, by simp, by rw [hfind]; rfl⟩
              · exact Or.inl hh
            · rw [hrestmap n₂] at hmap
              exact Or.inr ⟨n₂, by simp [hn₂], hmap⟩
          · rintro (h | ⟨n₂, hn₂, hmap⟩)
            · exact Or.inl (by simp [h])
            · rcases List.mem_cons.mp hn₂ with hh | hh
              · subst hh
                rw [hfind] at hmap
                simp only [Option.map] at hmap
                injection hmap with hmap
                subst hmap
                exact Or.inl (by simp)
              · exact Or.inr ⟨n₂, hh, by rw [hrestmap n₂]; exact hmap⟩

/-- The field overwrite `merge_server_item` applies to the matched row via
`update_item` when the remote item is newer: content and metadata from the
payload where supplied, updatedAt stamped (it is overwritten again right
after), everything else untouched. -/
def mergeFieldUpdate (si : ServerItem) (now : ℤ) (locId : String) (it : Item) : Item :=
  if it.id == locId && it.deletedAt == 0 then
    { it with
      content := match si.content with
        | some c => some c
        | none => it.content
      metadata := si.metadata.getD it.metadata
      updatedAt := now }
  else it

/-- The timestamp rewrite `merge_server_item` applies after the field
update: updatedAt from the remote payload, syncedAt = now. -/
def mergeStampUpdate (si : ServerItem) (now : ℤ) (locId : String) (it : Item) : Item :=
  if it.id == locId then
    { it with updatedAt := si.updatedAt, syncedAt := now }
  else it

theorem find?_live_map (id : String) (f : Item → Item) (q : Item → Bool)
    (hfid : ∀ y, (f y).id = y.id) (hfdel : ∀ y, (f y).deletedAt = y.deletedAt)
    {l : List Item} {x : Item}
    (h : l.find? (fun it => it.id == id && it.deletedAt == 0) = some x) :
    (l.map (fun y => if q y then f y else y)).find?
      (fun it => it.id == id && it.deletedAt == 0)
      = some (if q x then f x else x) := by
  refine find?_map_pred _ q f h ?_
  intro y
  by_cases hq : q y = true
  · rw [if_pos hq]
    show ((f y).id == id && (f y).deletedAt == 0) = _
    rw [hfid, hfdel]
  · rw [if_neg hq]

/-- C1 (amended): last-write-wins merge for a matched live local item.
When the local item is strictly newer the merge returns "conflict" and the
whole database is unchanged; on equal timestamps it returns "skipped" and
changes nothing; when the remote item is strictly newer it returns "pulled",
the local row's updatedAt becomes remote.updated_at (and syncedAt = now),
content and metadata are overwritten by the remote payload where the payload
supplies them (a null remote content/metadata leaves the local field
unchanged), the item's tag links are replaced so that afterwards a tag is
linked iff some remote tag name resolves to it, and all other rows are
untouched. -/
theorem C1_merge_lww (db : DB) (si : ServerItem) (now : ℤ) (gen : ℕ → String)
    (loc : Item)
    (hnodup : (db.items.map Item.id).Nodup)
    (hloc : db.items.find? (fun it => it.syncId == si.id && it.deletedAt == 0)
      = some loc) :
    (loc.updatedAt > si.updatedAt →
      merge_server_item db now gen si = .ok ("conflict", db)) ∧
    (loc.updatedAt = si.updatedAt →
      merge_server_item db now gen si = .ok ("skipped", db)) ∧
    (si.updatedAt > loc.updatedAt →
      (∀ n ∈ si.tags,
        (db.tags.find? (fun tg => tg.name.toLower == n.toLower)).isSome = true) →
      (∀ j, j < 2 * si.tags.length → ∀ l ∈ db.itemTags, l.id ≠ gen j) →
      (∀ j j₂, j < j₂ → j₂ < 2 * si.tags.length → gen j ≠ gen j₂) →
      ∃ db',
        merge_server_item db now gen si = .ok ("pulled", db') ∧
        db'.items.find? (fun x => x.id == loc.id && x.deletedAt == 0) = some
          { loc with
            content := match si.content with
              | some c => some c
              | none => loc.content
            metadata := si.metadata.getD loc.metadata
            updatedAt := si.updatedAt
            syncedAt := now } ∧
        (∀ x ∈ db.items, x.id ≠ loc.id → x ∈ db'.items) ∧
        db'.settings = db.settings ∧
        db'.tags.map (fun t => (t.id, t.name)) = db.tags.map (fun t => (t.id, t.name)) ∧
        (∀ tid, hasLink db'.itemTags loc.id tid = true ↔
          ∃ n ∈ si.tags,
            (db.tags.find? (fun tg => tg.name.toLower == n.toLower)).map
              (fun t => t.id) = some tid) ∧
        (∀ iid, iid ≠ loc.id → ∀ tid,
          hasLink db'.itemTags iid tid = hasLink db.itemTags iid tid)) := by
  have hmem : loc ∈ db.items := List.mem_of_find?_eq_some hloc
  have hpredloc : (loc.syncId == si.id && loc.deletedAt == 0) = true := by
    simpa using List.find?_some hloc
  have hlive : loc.deletedAt = 0 := by
    have h2 := (Bool.and_eq_true .. |>.mp hpredloc).2
    simpa using h2
  refine ⟨?_, ?_, ?_⟩
  · intro h
    simp only [merge_server_item, hloc]
    rw [if_neg (by omega), if_pos h]
  · intro h
    simp only [merge_server_item, hloc]
    rw [if_neg (by omega), if_neg (by omega)]
  · intro hlt hres hfresh hdist
    have hfindp : db.items.find? (fun x => x.id == loc.id && x.deletedAt == 0)
        = some loc := by
      refine find?_id_of_nodup hnodup hmem _ (fun y hy => ?_) (by simp [hlive])
      have h2 := (Bool.and_eq_true .. |>.mp hy).1
      simpa using h2
    have hploc : (loc.id == loc.id && loc.deletedAt == 0) = true := by
      simp [hlive]
    have hmerge : ∃ dbMid : DB,
        merge_server_item db now gen si
          = .ok ("pulled", sync_tags_to_item dbMid loc.id si.tags now gen) ∧
        dbMid.tags = db.tags ∧ dbMid.settings = db.settings ∧
        dbMid.itemTags = db.itemTags ∧
        dbMid.items.find? (fun x => x.id == loc.id && x.deletedAt == 0) = some
          { loc with
            content := match si.content with
              | some c => some c
              | none => loc.content
            metadata := si.metadata.getD loc.metadata
            updatedAt := si.updatedAt
            syncedAt := now } ∧
        (∀ x ∈ db.items, x.id ≠ loc.id → x ∈ dbMid.items) := by
      by_cases hu : (si.content.isSome || si.metadata.isSome) = true
      · refine ⟨{ db with
            items := (db.items.map (mergeFieldUpdate si now loc.id)).map
              (mergeStampUpdate si now loc.id) }, ?_, rfl, rfl, rfl, ?_, ?_⟩
        · simp only [merge_server_item, hloc]
          rw [if_pos hlt]
          simp only [update_item, Option.isSome_none, Bool.or_false, hu,
            Bool.not_true, Bool.false_eq_true, if_false]
          rfl
        · have s1 := find?_live_map loc.id
            (fun it => { it with
              content := match si.content with
                | some c => some c
                | none => it.content
              metadata := si.metadata.getD it.metadata
              updatedAt := now })
            (fun x => x.id == loc.id && x.deletedAt == 0)
            (fun y => rfl) (fun y => rfl) hfindp
          rw [if_pos hploc] at s1
          have s2 := find?_live_map loc.id
            (fun it => { it with updatedAt := si.updatedAt, syncedAt := now })
            (fun x => x.id == loc.id)
            (fun y => rfl) (fun y => rfl) s1
          rw [if_pos (by simp)] at s2
          exact s2
        · intro x hx hne
          have e1 : mergeFieldUpdate si now loc.id x = x := by
            unfold mergeFieldUpdate
            rw [if_neg (by simp [hne])]
          have e2 : mergeStampUpdate si now loc.id x = x := by
            unfold mergeStampUpdate
            rw [if_neg (by simp [hne])]
          exact List.mem_map.mpr ⟨x, List.mem_map.mpr ⟨x, hx, e1⟩, e2⟩
      · have hcn : si.content = none := by
          cases hsc : si.content with
          | none => rfl
          | some c => rw [hsc] at hu; simp at hu
        have hmn : si.metadata = none := by
          cases hsm : si.metadata with
          | none => rfl
          | some m => rw [hsm] at hu; simp at hu
        refine ⟨{ db with
            items := db.items.map (mergeStampUpdate si now loc.id) },
          ?_, rfl, rfl, rfl, ?_, ?_⟩
        · simp only [merge_server_item, hloc]
          rw [if_pos hlt]
          rw [hcn, hmn]
          rfl
        · have s2 := find?_live_map loc.id
            (fun it => { it with updatedAt := si.updatedAt, syncedAt := now })
            (fun x => x.id == loc.id)
            (fun y => rfl) (fun y => rfl) hfindp
          rw [if_pos (by simp)] at s2
          rw [hcn, hmn]
          exact s2
        · intro x hx hne
          have e2 : mergeStampUpdate si now loc.id x = x := by
            unfold mergeStampUpdate
            rw [if_neg (by simp [hne])]
          exact List.mem_map.mpr ⟨x, hx, e2⟩
    obtain ⟨dbMid, hmerge_eq, htags, hsettings, hlinkeq, hfindMid, hmemMid⟩ := hmerge
    have haux := sync_tags_aux_spec now gen loc.id si.tags 0
      { dbMid with itemTags := dbMid.itemTags.filter (fun l => !(l.itemId == loc.id)) }
      (by intro n hn
          show ((dbMid.tags).find? _).isSome = true
          rw [htags]
          exact hres n hn)
      (by intro j h0 hj l hl
          have hl2 : l ∈ dbMid.itemTags := (List.mem_filter.mp hl).1
          rw [hlinkeq] at hl2
          exact hfresh j (by omega) l hl2)
      (by intro j j₂ h0 hj hj2
          exact hdist j j₂ hj (by omega))
    obtain ⟨h1, h2, h3, h4, h5⟩ := haux
    refine ⟨sync_tags_to_item dbMid loc.id si.tags now gen, hmerge_eq,
      ?_, ?_, ?_, ?_, ?_, ?_⟩
    · show (sync_tags_aux now gen loc.id si.tags 0 _).items.find? _ = _
      rw [h1]
      exact hfindMid
    · intro x hx hne
      show x ∈ (sync_tags_aux now gen loc.id si.tags 0 _).items
      rw [h1]
      exact hmemMid x hx hne
    · show (sync_tags_aux now gen loc.id si.tags 0 _).settings = _
      rw [h2]
      exact hsettings
    · show (sync_tags_aux now gen loc.id si.tags 0 _).tags.map _ = _
      rw [h3]
      show (dbMid.tags).map _ = _
      rw [htags]
    · intro tid
      show hasLink (sync_tags_aux now gen loc.id si.tags 0 _).itemTags loc.id tid
        = true ↔ _
      rw [h5 tid]
      constructor
      · rintro (h | ⟨n, hn, hmap⟩)
        · have h2 : hasLink
              (dbMid.itemTags.filter (fun l => !(l.itemId == loc.id))) loc.id tid
              = true := h
          rw [hasLink_filter_self] at h2
          exact absurd h2 (by simp)
        · refine ⟨n, hn, ?_⟩
          have hm : (dbMid.tags.find? (fun tg => tg.name.toLower == n.toLower)).map
              (fun t => t.id) = some tid := hmap
          rw [htags] at hm
          exact hm
      · rintro ⟨n, hn, hmap⟩
        refine Or.inr ⟨n, hn, ?_⟩
        show (dbMid.tags.find? (fun tg => tg.name.toLower == n.toLower)).map
          (fun t => t.id) = some tid
        rw [htags]
        exact hmap
    · intro iid hiid tid
      show hasLink (sync_tags_aux now gen loc.id si.tags 0 _).itemTags iid tid = _
      rw [h4 iid hiid tid]
      have e : hasLink
          (dbMid.itemTags.filter (fun l => !(l.itemId == loc.id))) iid tid
          = hasLink dbMid.itemTags iid tid := hasLink_filter_ne _ _ _ _ hiid
      exact e.trans (congrArg (fun z => hasLink z iid tid) hlinkeq)

/-- A live local item already linked to the server id "S". -/
def itemSyncedS : Item :=
  { id := "A", itemType := "note", content := some "old", mimeType := "",
    metadata := "{}", syncId := "S", syncSource := "server", createdAt := 1,
    updatedAt := 5, deletedAt := 0, starred := 0, archived := 0,
    syncedAt := 2, visitCount := 0, lastVisitAt := 0 }

/-- A database holding `itemSyncedS` and the tag `tagT`. -/
def dbSynced : DB :=
  { items := [itemSyncedS], tags := [tagT], itemTags := [], settings := [] }

/-- A remote copy of "S" that is newer but carries a null content and null
metadata. -/
def siNullNewer : ServerItem :=
  { id := "S", itemType := "note", content := none, tags := [],
    metadata := none, createdAt := 1, updatedAt := 9 }

/-- A remote copy of "S" that is newer and supplies content. -/
def siNewer : ServerItem :=
  { id := "S", itemType := "note", content := some "new", tags := ["work"],
    metadata := none, createdAt := 1, updatedAt := 9 }

/-- A remote copy of "S" that is older than the local item. -/
def siOlder : ServerItem :=
  { id := "S", itemType := "note", content := some "other", tags := [],
    metadata := none, createdAt := 1, updatedAt := 3 }

/-- An injective id generator for merge witnesses. -/
def genW : ℕ → String := fun k => String.mk (List.replicate (k + 1) 'g')

/-- C1 counterexample: a strictly newer remote item with a null content is
merged as "pulled", yet the local content is NOT overwritten with the remote
payload's (null) content — it keeps its old value, so "content ...
overwritten from the remote payload" fails as literally stated. -/
theorem C1_counterexample :
    siNullNewer.content = none ∧
    (merge_server_item dbSynced 100 genW siNullNewer).toOption.map
        (fun r => r.1) = some "pulled" ∧
    (merge_server_item dbSynced 100 genW siNullNewer).toOption.map (fun r =>
        r.2.items.map (fun it => (it.content, it.updatedAt)))
      = some [(some "old", 9)] :=
  ⟨rfl, rfl, rfl⟩

/-- C1 witness: the amended merge theorem at concrete inputs — an older
remote item yields "conflict" with the database untouched, a newer one
yields "pulled" with content, updatedAt and syncedAt rewritten. -/
theorem C1_merge_lww_witness :
    merge_server_item dbSynced 100 genW siOlder = .ok ("conflict", dbSynced) ∧
    ∃ db', merge_server_item dbSynced 100 genW siNewer = .ok ("pulled", db') ∧
      db'.items.find? (fun x => x.id == "A" && x.deletedAt == 0) = some
        { itemSyncedS with
          content := some "new"
          updatedAt := 9
          syncedAt := 100 } := by
  constructor
  · exact (C1_merge_lww dbSynced siOlder 100 genW itemSyncedS
      (by simp [dbSynced, itemSyncedS]) rfl).1 (by decide)
  · obtain ⟨db', he, hf, _⟩ :=
      (C1_merge_lww dbSynced siNewer 100 genW itemSyncedS
        (by simp [dbSynced, itemSyncedS]) rfl).2.2 (by decide)
        (by intro n hn
            simp only [siNewer, List.mem_singleton] at hn
            subst hn
            have hpred : (tagT.name.toLower == "work".toLower) = true := by
              show ("work".toLower == "work".toLower) = true
              exact beq_self_eq_true _
            have hf : List.find? (fun tg => tg.name.toLower == "work".toLower)
                dbSynced.tags = some tagT := List.find?_cons_of_pos _ hpred
            rw [hf]
            rfl)
        (by intro j hj l hl
            simp [dbSynced] at hl)
        (by intro j j₂ h1 h2
            have hj : j = 0 ∧ j₂ = 1 := by
              simp only [siNewer, List.length_singleton] at h2
              omega
            rcases hj with ⟨hj0, hj1⟩
            subst hj0
            subst hj1
            decide)
    exact ⟨db', he, hf⟩

/-! ## C2: sync_all orchestration -/

theorem get_setting_set_setting (db : DB) (now : ℤ) (ext key value : String) :
    get_setting (set_setting db now ext key value) ext key = some value := by
  simp only [get_setting, set_setting]
  rw [show (List.find? (fun s => s.extensionId == ext && s.key == key)
      ({ id := ext ++ "-" ++ key
         extensionId := ext
         key := key
         value := value
         updatedAt := now } ::
        db.settings.filter (fun s => !(s.id == ext ++ "-" ++ key) &&
          !(s.extensionId == ext && s.key == key))))
    = some { id := ext ++ "-" ++ key
             extensionId := ext
             key := key
             value := value
             updatedAt := now } from List.find?_cons_of_pos _ (by simp)]
  rfl

theorem push_loop_trace (serverUrl apiKey : String) (clock : ℕ → ℤ)
    (oracle : ServerOracle) :
    ∀ (items : List ItemPushData) (i : ℕ) (db : DB) (pushed failed : ℤ),
    ∀ r ∈ (push_loop serverUrl apiKey clock oracle items i db pushed failed).2.2.2,
      r.method = "POST" := by
  intro items
  induction items with
  | nil =>
    intro i db pushed failed r hr
    simp [push_loop] at hr
  | cons d rest ih =>
    intro i db pushed failed r hr
    simp only [push_loop] at hr
    cases ho : oracle.pushResponse i with
    | ok sid =>
      simp only [ho] at hr
      rcases List.mem_cons.mp hr with hh | hh
      · subst hh
        rfl
      · exact ih (i + 1) _ (pushed + 1) failed r hh
    | error e =>
      simp only [ho] at hr
      rcases List.mem_cons.mp hr with hh | hh
      · subst hh
        rfl
      · exact ih (i + 1) db pushed (failed + 1) r hh

theorem pull_from_server_ok (db : DB) (serverUrl apiKey : String)
    (since : Option ℤ) (oracle : ServerOracle) (gen2 : ℕ → ℕ → String)
    (clock : ℕ → ℤ) (its : List ServerItem) (h : oracle.pullItems = .ok its) :
    ∃ pr db₁ req,
      pull_from_server db false serverUrl apiKey since oracle gen2 clock
        = (.ok pr, db₁, [req]) ∧ req.method = "GET" := by
  simp only [pull_from_server, Bool.false_eq_true, if_false, h]
  exact ⟨_, _, _, rfl, rfl⟩

theorem pull_from_server_err (db : DB) (serverUrl apiKey : String)
    (since : Option ℤ) (oracle : ServerOracle) (gen2 : ℕ → ℕ → String)
    (clock : ℕ → ℤ) (e : String) (h : oracle.pullItems = .error e) :
    ∃ req,
      pull_from_server db false serverUrl apiKey since oracle gen2 clock
        = (.error e, db, [req]) ∧ req.method = "GET" := by
  simp only [pull_from_server, Bool.false_eq_true, if_false, h]
  exact ⟨_, rfl, rfl⟩

theorem push_to_server_ok (db : DB) (serverUrl apiKey : String) (last : ℤ)
    (oracle : ServerOracle) (clock : ℕ → ℤ) :
    ∃ pr db₂ tr,
      push_to_server db false serverUrl apiKey last oracle clock
        = (.ok pr, db₂, tr) ∧ ∀ r ∈ tr, r.method = "POST" := by
  simp only [push_to_server, Bool.false_eq_true, if_false]
  exact ⟨_, _, _, rfl, push_loop_trace serverUrl apiKey clock oracle _ 0 db 0 0⟩

/-- C2 (amended): `sync_all` fails fast — before any network I/O, leaving
the state untouched — exactly when the configured API key is empty (an empty
server URL is NOT checked); otherwise it pulls (one GET), then pushes (only
POSTs), and only after both phases complete stores the watermark, whose
value is the wall clock captured when the sync started (`clock 0`, read
before the pull) rather than the completion time; if the pull fails the
whole sync aborts with the state (hence the watermark) unchanged. -/
theorem C2_sync_all (db : DB) (env : Option String) (syncDisabled : Bool)
    (oracle : ServerOracle) (gen2 : ℕ → ℕ → String) (clock : ℕ → ℤ) :
    ((get_sync_config db env).apiKey = "" →
      sync_all db env syncDisabled oracle gen2 clock
        = (.error "Sync not configured: no API key", db, [])) ∧
    (∀ its, (get_sync_config db env).apiKey ≠ "" → syncDisabled = false →
      oracle.pullItems = .ok its →
      ∃ res db' req tr₂,
        sync_all db env syncDisabled oracle gen2 clock
          = (.ok res, db', req :: tr₂) ∧
        req.method = "GET" ∧ (∀ r ∈ tr₂, r.method = "POST") ∧
        res.lastSyncTime = clock 0 ∧
        get_setting db' "sync" "lastSyncTime" = some (toString (clock 0))) ∧
    (∀ e, (get_sync_config db env).apiKey ≠ "" → syncDisabled = false →
      oracle.pullItems = .error e →
      ∃ req, sync_all db env syncDisabled oracle gen2 clock
        = (.error e, db, [req]) ∧ req.method = "GET") := by
  refine ⟨?_, ?_, ?_⟩
  · intro h
    simp only [sync_all]
    rw [if_pos (by simp [h])]
  · intro its hkey hdis hpull
    subst hdis
    obtain ⟨pr, db₁, req, hpeq, hreqm⟩ := pull_from_server_ok db
      (get_sync_config db env).serverUrl (get_sync_config db env).apiKey
      (if (get_sync_config db env).lastSyncTime > 0 then
        some (get_sync_config db env).lastSyncTime
      else none)
      oracle gen2 (fun t => clock (t + 1)) its hpull
    obtain ⟨ps, db₂, tr₂, hpusheq, htrm⟩ := push_to_server_ok db₁
      (get_sync_config db env).serverUrl (get_sync_config db env).apiKey
      (get_sync_config db env).lastSyncTime oracle (fun t => clock (t + 1000001))
    refine ⟨{ pulled := pr.pulled
              pushed := ps.pushed
              conflicts := pr.conflicts
              lastSyncTime := clock 0 },
      set_setting db₂ (clock 2000001) "sync" "lastSyncTime" (toString (clock 0)),
      req, tr₂, ?_, hreqm, htrm, rfl,
      get_setting_set_setting db₂ (clock 2000001) "sync" "lastSyncTime"
        (toString (clock 0))⟩
    simp only [sync_all]
    rw [if_neg (by simpa using hkey)]
    simp only [hpeq, hpusheq]
    rfl
  · intro e hkey hdis hpull
    subst hdis
    obtain ⟨req, hpeq, hreqm⟩ := pull_from_server_err db
      (get_sync_config db env).serverUrl (get_sync_config db env).apiKey
      (if (get_sync_config db env).lastSyncTime > 0 then
        some (get_sync_config db env).lastSyncTime
      else none)
      oracle gen2 (fun t => clock (t + 1)) e hpull
    refine ⟨req, ?_, hreqm⟩
    simp only [sync_all]
    rw [if_neg (by simpa using hkey)]
    simp only [hpeq]

/-- A database whose sync settings carry an empty server URL and a non-empty
API key. -/
def dbEmptyUrl : DB :=
  { items := [], tags := [], itemTags := [],
    settings := [
      { id := "sync-serverUrl", extensionId := "sync", key := "serverUrl",
        value := "\"\"", updatedAt := 0 },
      { id := "sync-apiKey", extensionId := "sync", key := "apiKey",
        value := "\"k\"", updatedAt := 0 }] }

/-- A server that returns no items on pull and fails every push. -/
def oracleNoItems : ServerOracle :=
  { pullItems := .ok [], pushResponse := fun _ => .error "down" }

def gen2W : ℕ → ℕ → String := fun _ _ => "g"

def clockW : ℕ → ℤ := fun t => (t : ℤ)

/-- C2 counterexample: with an empty configured server URL but a non-empty
API key, sync_all does NOT fail fast — it issues a GET (network I/O) against
the empty base URL, so "server URL ... empty → error before any network
I/O" is false; only the API key is checked. -/
theorem C2_counterexample :
    (get_sync_config dbEmptyUrl none).serverUrl = "" ∧
    (get_sync_config dbEmptyUrl none).apiKey = "k" ∧
    (sync_all dbEmptyUrl none false oracleNoItems gen2W clockW).2.2
      = [{ method := "GET", url := "/items", auth := "Bearer k" }] := by
  refine ⟨by decide, by decide, by decide⟩

/-- C2 witness: fail-fast on a missing API key, and a successful sync whose
stored watermark is the start-time clock reading. -/
theorem C2_sync_all_witness :
    sync_all dbEmpty none false oracleNoItems gen2W clockW
      = (.error "Sync not configured: no API key", dbEmpty, []) ∧
    ∃ res db' req tr₂,
      sync_all dbEmptyUrl none false oracleNoItems gen2W clockW
        = (.ok res, db', req :: tr₂) ∧
      res.lastSyncTime = clockW 0 ∧
      get_setting db' "sync" "lastSyncTime" = some (toString (clockW 0)) := by
  constructor
  · exact (C2_sync_all dbEmpty none false oracleNoItems gen2W clockW).1 (by decide)
  · obtain ⟨res, db', req, tr₂, h1, h2, h3, h4, h5⟩ :=
      (C2_sync_all dbEmptyUrl none false oracleNoItems gen2W clockW).2.1 []
        (by decide) rfl rfl
    exact ⟨res, db', req, tr₂, h1, h4, h5⟩

end Peek
